import Mathlib

set_option maxRecDepth 8000

/-!
Verification of the cell core and model layer of the `broxus-types` repository.

The development shallowly embeds the Rust source:

* the cell core (`src/cell/cell_impl/sync.rs`, `src/cell/usage_tree.rs`):
  descriptors, cell variants, virtualization, finalization dispatch, and the
  usage tree that records cell accesses;
* the model layer (`src/models/transaction/mod.rs`, `src/models/config/params.rs`):
  `Transaction`, `ValidatorSet` and `WorkchainDescription` with their
  `Store`/`Load` cell codecs over a bit-level builder/slice model.

Collaborator code that is not part of the excerpt (the descriptor bit
helpers, the finalizer's hash computation, the `CellBuilder`/`CellSlice`
bit cursors, the dictionary layer, `Arc` reference counting) is modelled
from the specification; every such definition carries a doc comment
starting with `Modelled from the spec:`.
-/

/-! Section: Core cell model. -/

/-- Representation hashes are 32-byte digests; they are modelled as opaque
natural-number keys (the SHA-256 computation lives in the finalizer, which is
outside the excerpt). -/
abbrev CellHash := Nat

/-- Two-byte cell descriptor (`d1`, `d2`), each byte a natural number `< 256`. -/
structure CellDescriptor where
  d1 : Nat
  d2 : Nat
deriving DecidableEq

/-- Modelled from the spec: `CellDescriptor::level_mask` is not under `src/`.
Per spec §3.1 the level mask is the 3-bit field in bits 5..7 of `d1`. -/
def CellDescriptor.level_mask (d : CellDescriptor) : Nat :=
  (d.d1 >>> 5) % 8

/-- Modelled from the spec: `LevelMask::is_empty` is not under `src/`; the mask
is a 3-bit set, empty iff it is zero. -/
def levelMaskIsEmpty (mask : Nat) : Bool :=
  mask == 0

/-- Cell types distinguished by the finalizer (spec §3.1, §6). -/
inductive CellType where
  | ordinary
  | prunedBranch
  | libraryReference
  | merkleProof
  | merkleUpdate
deriving DecidableEq

/-- Modelled from the spec: `CellDescriptor::cell_type` is not under `src/`.
Per spec §3.1, bit 3 of `d1` is the exotic flag; the exotic type is read from
the first data byte (`0x01` pruned branch, `0x02` library reference,
`0x03` Merkle proof, `0x04` Merkle update), otherwise the cell is ordinary.
Invalid exotic tags are rejected while computing hashes, before `make_cell`
runs, so the fallback value here is never observed on finalized parts. -/
def cellTypeOf (d : CellDescriptor) (data : List Nat) : CellType :=
  if d.d1 &&& 8 = 0 then .ordinary
  else
    match data.head? with
    | some 1 => .prunedBranch
    | some 2 => .libraryReference
    | some 3 => .merkleProof
    | some 4 => .merkleUpdate
    | _ => .ordinary

/-- Cell variants of `src/cell/cell_impl` (spec §3.1): the shared empty
ordinary singleton, ordinary cells, pruned branches, library references and
the virtualized view wrapper.  Data is a byte list; cached hashes are stored
per level together with their depths. -/
inductive CellImpl where
  | emptyOrdinary : CellImpl
  | ordinary (descriptor : CellDescriptor) (bit_len : Nat) (data : List Nat)
      (references : List CellImpl) (hashes : List (CellHash × Nat)) : CellImpl
  | prunedBranch (descriptor : CellDescriptor) (repr_hash : CellHash)
      (data : List Nat) : CellImpl
  | libraryReference (descriptor : CellDescriptor) (repr_hash : CellHash)
      (data : List Nat) : CellImpl
  | virtual (inner : CellImpl) : CellImpl

/-- Descriptor of each variant.  The `virtual` case is modelled from the spec
(§4.6): `VirtualCell` is not under `src/`; its observable level mask is the
inner mask shifted right by one, the rest of the descriptor is unchanged. -/
def CellImpl.descriptor : CellImpl → CellDescriptor
  | .emptyOrdinary => ⟨0, 0⟩
  | .ordinary d _ _ _ _ => d
  | .prunedBranch d _ _ => d
  | .libraryReference d _ _ => d
  | .virtual inner =>
      let d := CellImpl.descriptor inner
      ⟨d.d1 % 32 + (d.level_mask >>> 1) <<< 5, d.d2⟩

/-- Source: `CellFamily::empty_cell` (`src/cell/cell_impl/sync.rs` lines
71–73) returns a handle to the `EmptyOrdinaryCell` singleton. -/
def empty_cell : CellImpl :=
  .emptyOrdinary

/-- Source: `CellFamily::virtualize` (`src/cell/cell_impl/sync.rs` lines
87–94): return the cell unchanged when its level mask is empty, otherwise
wrap the same handle in a `VirtualCell`. -/
def virtualize (cell : CellImpl) : CellImpl :=
  if levelMaskIsEmpty cell.descriptor.level_mask then cell
  else .virtual cell

/-- Transient assembled cell parts consumed by the finalizer (spec §3.1). -/
structure CellParts where
  descriptor : CellDescriptor
  bit_len : Nat
  data : List Nat
  references : List CellImpl

/-- Source: `make_cell` (`src/cell/cell_impl/sync.rs` lines 131–175).
Dispatches on the cell type: pruned branches and library references store the
single representation hash; an ordinary cell with `d1 = d2 = 0` becomes the
shared `EmptyOrdinaryCell`; everything else becomes an ordinary-layout cell
with the computed hash list. -/
def make_cell (ctx : CellParts) (hashes : List (CellHash × Nat)) : CellImpl :=
  match cellTypeOf ctx.descriptor ctx.data with
  | .prunedBranch =>
      .prunedBranch ctx.descriptor (hashes.headD (0, 0)).1 ctx.data
  | .libraryReference =>
      .libraryReference ctx.descriptor (hashes.headD (0, 0)).1 ctx.data
  | t =>
      if t = .ordinary ∧ ctx.descriptor.d1 = 0 ∧ ctx.descriptor.d2 = 0 then
        .emptyOrdinary
      else
        .ordinary ctx.descriptor ctx.bit_len ctx.data ctx.references hashes

/-- Source: `ArcCellFinalizer::finalize_cell` (`src/cell/cell_impl/sync.rs`
lines 123–129): compute the hashes, then build the cell with `make_cell`.
The hash computation (`CellParts::compute_hashes`, spec §4.5) is not under
`src/`; it is passed in as the collaborating capability, `none` meaning a
structural validation failure. -/
def finalize_cell (compute_hashes : CellParts → Option (List (CellHash × Nat)))
    (ctx : CellParts) : Option CellImpl :=
  (compute_hashes ctx).map (make_cell ctx)

/-! Section: Usage tree. -/

/-- Source: `UsageTreeMode` (`src/cell/usage_tree.rs` lines 10–15). -/
inductive UsageTreeMode where
  | onLoad
  | onDataAccess
deriving DecidableEq

/-- Modelled from the spec: the inner cells wrapped by the usage tree only
contribute their `repr_hash`, data payload and child references here; hashing
is performed by the finalizer (not under `src/`), so the hash is carried as a
field. -/
inductive TCell where
  | mk (repr_hash : CellHash) (data : List Nat) (refs : List TCell)

/-- Representation hash of a tracked cell. -/
def TCell.repr_hash : TCell → CellHash
  | .mk h _ _ => h

/-- Data payload of a tracked cell. -/
def TCell.data : TCell → List Nat
  | .mk _ d _ => d

/-- Child references of a tracked cell. -/
def TCell.refs : TCell → List TCell
  | .mk _ _ r => r

/-- Source: `CellImpl::reference_cloned` for the inner cell (spec §4.3):
resolve child `i`, `none` out of range. -/
def TCell.reference_cloned (c : TCell) (index : Nat) : Option TCell :=
  c.refs.get? index

/-- Source: `VisitedCell` (`src/cell/usage_tree.rs` lines 85–88).  The Rust
field `include` is named `incl` here (`include` is reserved); `_cell` keeps
the tracked handle alive. -/
structure VisitedCell where
  incl : Bool
  cell : TCell

/-- Source: `UsageTreeState` (`src/cell/usage_tree.rs` lines 166–169, rc
profile): the mode and the visited map, keyed by representation hash.  The
hash map is modelled as an association list. -/
structure UsageTreeState where
  mode : UsageTreeMode
  visited : List (CellHash × VisitedCell)

/-- Source: `UsageTreeState::new` (`src/cell/usage_tree.rs` lines 172–177). -/
def UsageTreeState.new (mode : UsageTreeMode) : UsageTreeState :=
  ⟨mode, []⟩

/-- Update step of `UsageTreeState::insert`: if the key is present, or-in the
include flag (keeping the originally stored cell); otherwise append a fresh
entry. -/
def updateVisited (visited : List (CellHash × VisitedCell)) (h : CellHash)
    (incl : Bool) (cell : TCell) : List (CellHash × VisitedCell) :=
  match visited with
  | [] => [(h, ⟨incl, cell⟩)]
  | (k, v) :: rest =>
      if k = h then (k, ⟨v.incl || incl, v.cell⟩) :: rest
      else (k, v) :: updateVisited rest h incl cell

/-- Source: `UsageTreeState::insert` (`src/cell/usage_tree.rs` lines
187–205): `include = (mode == ctx)`; an existing entry gets
`include |= ...`, a missing key is inserted with that flag. -/
def UsageTreeState.insert (s : UsageTreeState) (cell : TCell)
    (ctx : UsageTreeMode) : UsageTreeState :=
  ⟨s.mode, updateVisited s.visited cell.repr_hash (s.mode == ctx) cell⟩

/-- Source: `UsageTreeState::contains` (`src/cell/usage_tree.rs` lines
207–214): the stored `include` flag, `false` for a missing key. -/
def UsageTreeState.contains (s : UsageTreeState) (repr_hash : CellHash) : Bool :=
  match s.visited.find? (fun kv => kv.1 == repr_hash) with
  | some kv => kv.2.incl
  | none => false

/-- Fold a sequence of `insert` calls over a usage-tree state.  Each event is
one access recorded by the wrappers: `UsageTree::track` and
`UsageCell::load_reference` insert with `OnLoad` context, `UsageCell::data`
inserts with `OnDataAccess` context. -/
def applyInserts (s : UsageTreeState) : List (TCell × UsageTreeMode) → UsageTreeState
  | [] => s
  | (c, ctx) :: rest => applyInserts (s.insert c ctx) rest

theorem contains_cons (mode : UsageTreeMode) (k : CellHash) (v : VisitedCell)
    (rest : List (CellHash × VisitedCell)) (h : CellHash) :
    UsageTreeState.contains ⟨mode, (k, v) :: rest⟩ h =
      if k = h then v.incl else UsageTreeState.contains ⟨mode, rest⟩ h := by
  simp only [UsageTreeState.contains, List.find?]
  by_cases hkh : k = h
  · subst hkh
    simp
  · have hb : (k == h) = false := beq_eq_false_iff_ne.mpr hkh
    simp [hb, hkh]

theorem contains_updateVisited (visited : List (CellHash × VisitedCell))
    (mode : UsageTreeMode) (k h : CellHash) (incl : Bool) (cell : TCell) :
    (UsageTreeState.contains ⟨mode, updateVisited visited k incl cell⟩ h) =
      ((UsageTreeState.contains ⟨mode, visited⟩ h) || (k = h && incl)) := by
  induction visited with
  | nil =>
      rw [show updateVisited [] k incl cell = [(k, ⟨incl, cell⟩)] from rfl,
        contains_cons]
      by_cases hkh : k = h
      · simp [hkh, UsageTreeState.contains]
      · simp [hkh, UsageTreeState.contains]
  | cons kv rest ih =>
      obtain ⟨k', v⟩ := kv
      by_cases hk : k' = k
      · subst hk
        rw [show updateVisited ((k', v) :: rest) k' incl cell =
            (k', ⟨v.incl || incl, v.cell⟩) :: rest by simp [updateVisited],
          contains_cons, contains_cons]
        by_cases hkh : k' = h
        · simp [hkh, Bool.or_assoc]
        · simp [hkh]
      · rw [show updateVisited ((k', v) :: rest) k incl cell =
            (k', v) :: updateVisited rest k incl cell by simp [updateVisited, hk],
          contains_cons, contains_cons, ih]
        by_cases hkh : k' = h
        · have hknh : k ≠ h := fun hc => hk (hkh.trans hc.symm)
          simp [hkh, hknh]
        · simp [hkh]

theorem contains_insert (s : UsageTreeState) (c : TCell) (ctx : UsageTreeMode)
    (h : CellHash) :
    (s.insert c ctx).contains h =
      (s.contains h || (c.repr_hash = h && s.mode == ctx)) := by
  obtain ⟨mode, visited⟩ := s
  exact contains_updateVisited visited mode c.repr_hash h (mode == ctx) c

theorem contains_applyInserts (events : List (TCell × UsageTreeMode))
    (s : UsageTreeState) (h : CellHash) :
    (applyInserts s events).contains h =
      (s.contains h ||
        events.any (fun e => e.1.repr_hash = h && s.mode == e.2)) := by
  induction events generalizing s with
  | nil => simp [applyInserts]
  | cons e rest ih =>
      obtain ⟨c, ctx⟩ := e
      simp only [applyInserts, List.any_cons]
      rw [ih, contains_insert]
      have hmode : (s.insert c ctx).mode = s.mode := rfl
      rw [hmode, Bool.or_assoc]

/-- Claim C1: for every usage tree and hash `h`, `contains h` holds after a
sequence of recorded accesses (each access is an `insert(cell, ctx)` call:
`track` and reference resolution use `OnLoad`, data reads use
`OnDataAccess`) iff some access with context equal to the tree's mode touched
a cell with `repr_hash = h`: an insert makes an entry included exactly when
its context equals the mode, keeps a previously included entry included, and
a hash never inserted yields `false`. -/
theorem usage_tree_contains_iff_compatible_access (mode : UsageTreeMode)
    (events : List (TCell × UsageTreeMode)) (h : CellHash) :
    (applyInserts (UsageTreeState.new mode) events).contains h = true ↔
      ∃ e ∈ events, e.1.repr_hash = h ∧ e.2 = mode := by
  rw [contains_applyInserts]
  have hnew : (UsageTreeState.new mode).contains h = false := rfl
  rw [hnew, Bool.false_or, List.any_eq_true]
  constructor
  · rintro ⟨e, he, hp⟩
    rw [Bool.and_eq_true, decide_eq_true_eq, beq_iff_eq] at hp
    exact ⟨e, he, hp.1, hp.2.symm⟩
  · rintro ⟨e, he, h1, h2⟩
    refine ⟨e, he, ?_⟩
    rw [Bool.and_eq_true, decide_eq_true_eq, beq_iff_eq]
    exact ⟨h1, h2.symm⟩

/-- Witness for C1: one `OnLoad` event in an `OnLoad` tree is contained. -/
theorem usage_tree_contains_iff_compatible_access_witness :
    (applyInserts (UsageTreeState.new .onLoad)
      [(TCell.mk 7 [] [], .onLoad)]).contains 7 = true :=
  (usage_tree_contains_iff_compatible_access .onLoad
      [(TCell.mk 7 [] [], .onLoad)] 7).mpr
    ⟨(TCell.mk 7 [] [], .onLoad), List.mem_singleton.mpr rfl, rfl, rfl⟩

/-- Claim C2: `virtualize` returns the identical handle when the descriptor's
level mask is empty, and otherwise wraps the very same cell (no copying of
payload or children) in a `VirtualCell`. -/
theorem virtualize_spec (c : CellImpl) :
    (levelMaskIsEmpty c.descriptor.level_mask = true → virtualize c = c) ∧
      (levelMaskIsEmpty c.descriptor.level_mask = false →
        virtualize c = .virtual c) := by
  constructor
  · intro h; simp [virtualize, h]
  · intro h; simp [virtualize, h]

/-- Witness for C2: a zero-mask cell is returned unchanged; a cell with
level mask `1` (`d1 = 0b0010_0000`) is wrapped. -/
theorem virtualize_spec_witness :
    virtualize .emptyOrdinary = .emptyOrdinary ∧
      virtualize (.ordinary ⟨32, 0⟩ 0 [] [] []) =
        .virtual (.ordinary ⟨32, 0⟩ 0 [] [] []) :=
  ⟨(virtualize_spec .emptyOrdinary).1 rfl,
    (virtualize_spec (.ordinary ⟨32, 0⟩ 0 [] [] [])).2 rfl⟩

/-- Claim C3: successful finalization of cell parts whose descriptor has cell
type `Ordinary` and `d1 = d2 = 0` yields the shared empty-ordinary singleton
`Cell::empty_cell()`, whatever hash list the hash computation produced. -/
theorem finalize_empty_ordinary
    (compute_hashes : CellParts → Option (List (CellHash × Nat)))
    (ctx : CellParts) (c : CellImpl)
    (htype : cellTypeOf ctx.descriptor ctx.data = .ordinary)
    (hd1 : ctx.descriptor.d1 = 0) (hd2 : ctx.descriptor.d2 = 0)
    (hfin : finalize_cell compute_hashes ctx = some c) :
    c = empty_cell := by
  unfold finalize_cell at hfin
  cases hch : compute_hashes ctx with
  | none => rw [hch] at hfin; simp at hfin
  | some hashes =>
      rw [hch, Option.map_some'] at hfin
      cases hfin
      unfold make_cell
      rw [htype]
      simp [hd1, hd2, empty_cell]

/-- Witness for C3: finalizing empty parts (`d1 = d2 = 0`, no data, no
references) under a hash computation that succeeds yields the singleton. -/
theorem finalize_empty_ordinary_witness :
    finalize_cell (fun _ => some [(0, 0)]) ⟨⟨0, 0⟩, 0, [], []⟩ =
      some empty_cell := by
  have h :=
    finalize_empty_ordinary (fun _ => some [(0, 0)]) ⟨⟨0, 0⟩, 0, [], []⟩
      (make_cell ⟨⟨0, 0⟩, 0, [], []⟩ [(0, 0)]) rfl rfl rfl rfl
  rw [← h]; rfl

/-! Section: Usage cells: memoized child wrappers (C7, C8). -/

/-- Source: `UsageCell` (`src/cell/usage_tree.rs` lines 217–221, rc profile):
the inner cell and four one-shot memoized child slots
(`[Option<Rc<Self>>; 4]`). -/
inductive UsageCell where
  | mk (cell : TCell) (c0 c1 c2 c3 : Option UsageCell)

/-- Inner cell of a usage cell. -/
def UsageCell.cell : UsageCell → TCell
  | .mk c _ _ _ _ => c

/-- Read child slot `i` (`none` for `i ≥ 4`). -/
def UsageCell.getChild : UsageCell → Nat → Option UsageCell
  | .mk _ c0 _ _ _, 0 => c0
  | .mk _ _ c1 _ _, 1 => c1
  | .mk _ _ _ c2 _, 2 => c2
  | .mk _ _ _ _ c3, 3 => c3
  | _, _ => none

/-- Write child slot `i` (no-op for `i ≥ 4`). -/
def UsageCell.setChild : UsageCell → Nat → Option UsageCell → UsageCell
  | .mk c _ c1 c2 c3, 0, x => .mk c x c1 c2 c3
  | .mk c c0 _ c2 c3, 1, x => .mk c c0 x c2 c3
  | .mk c c0 c1 _ c3, 2, x => .mk c c0 c1 x c3
  | .mk c c0 c1 c2 _, 3, x => .mk c c0 c1 c2 x
  | uc, _, _ => uc

/-- Fresh wrapper with all child slots empty, as created by
`UsageTreeState::wrap` and inside `load_reference`. -/
def newUsageCell (c : TCell) : UsageCell :=
  .mk c none none none none

/-- Source: `UsageCell::load_reference` (`src/cell/usage_tree.rs` lines
223–246, rc profile), in explicit state-passing form.  The weak
back-reference upgrade is the `Option UsageTreeState` argument: `some`
while the tree state is alive, `none` once it has been dropped.  For
`index < 4` a populated slot is returned as-is; an empty slot resolves the
inner reference, records an `OnLoad` insertion when the tree is alive, and
memoizes a fresh wrapper; `index ≥ 4` yields `none`. -/
def UsageCell.load_reference (uc : UsageCell) (tree : Option UsageTreeState)
    (index : Nat) : Option UsageCell × UsageCell × Option UsageTreeState :=
  if index < 4 then
    match uc.getChild index with
    | some value => (some value, uc, tree)
    | none =>
        match uc.cell.reference_cloned index with
        | none => (none, uc, tree)
        | some child =>
            let tree := tree.map (fun t => t.insert child .onLoad)
            let w := newUsageCell child
            (some w, uc.setChild index (some w), tree)
  else (none, uc, tree)

/-- Source: `UsageCell` `data` implementation (`src/cell/usage_tree.rs`
lines 101–106): record an `OnDataAccess` insertion when the weak tree
reference upgrades, then return the inner cell's data. -/
def UsageCell.data (uc : UsageCell) (tree : Option UsageTreeState) :
    List Nat × Option UsageTreeState :=
  match tree with
  | some t => (uc.cell.data, some (t.insert uc.cell .onDataAccess))
  | none => (uc.cell.data, none)

theorem getChild_setChild (uc : UsageCell) (i : Nat) (hi : i < 4)
    (x : Option UsageCell) : (uc.setChild i x).getChild i = x := by
  obtain ⟨c, c0, c1, c2, c3⟩ := uc
  interval_cases i <;> rfl

/-- Claim C7: child slots of a usage cell are one-shot memoized values: an
out-of-range index yields `none` with no state change; the first successful
`load_reference i` on an empty slot resolves the inner reference, performs
exactly one `OnLoad` insertion (when the tree is alive) and stores the fresh
wrapper in slot `i`; and after any successful call, a repeated call for the
same index returns the same memoized wrapper with no further state change. -/
theorem usage_cell_load_reference_memoized :
    (∀ (uc : UsageCell) (tree : Option UsageTreeState) (i : Nat), 4 ≤ i →
        uc.load_reference tree i = (none, uc, tree)) ∧
      (∀ (uc : UsageCell) (tree : Option UsageTreeState) (i : Nat)
          (child : TCell), i < 4 → uc.getChild i = none →
          uc.cell.reference_cloned i = some child →
          uc.load_reference tree i =
            (some (newUsageCell child),
              uc.setChild i (some (newUsageCell child)),
              tree.map (fun t => t.insert child .onLoad))) ∧
      (∀ (uc : UsageCell) (tree : Option UsageTreeState) (i : Nat)
          (w uc' : UsageCell) (tree' : Option UsageTreeState),
          uc.load_reference tree i = (some w, uc', tree') →
          ∀ t, uc'.load_reference t i = (some w, uc', t)) := by
  refine ⟨?_, ?_, ?_⟩
  · intro uc tree i hi
    simp [UsageCell.load_reference, Nat.not_lt.mpr hi]
  · intro uc tree i child hi hslot href
    simp [UsageCell.load_reference, hi, hslot, href]
  · intro uc tree i w uc' tree' hcall t
    unfold UsageCell.load_reference at hcall
    by_cases hi : i < 4
    · rw [if_pos hi] at hcall
      cases hslot : uc.getChild i with
      | some value =>
          rw [hslot] at hcall
          obtain ⟨h1, h2, h3⟩ := Prod.mk.injEq .. ▸ hcall
          cases hcall
          simp [UsageCell.load_reference, hi, hslot]
      | none =>
          rw [hslot] at hcall
          cases href : uc.cell.reference_cloned i with
          | none => rw [href] at hcall; cases hcall
          | some child =>
              rw [href] at hcall
              simp only at hcall
              cases hcall
              have hget : (uc.setChild i
                  (some (newUsageCell child))).getChild i =
                  some (newUsageCell child) := getChild_setChild uc i hi _
              simp [UsageCell.load_reference, hi, hget]
    · rw [if_neg hi] at hcall
      cases hcall

/-- Witness for C7: a concrete cell with one child — index 5 is `none`, the
first load of index 0 memoizes and inserts, and a repeated load returns the
memoized wrapper unchanged. -/
theorem usage_cell_load_reference_memoized_witness :
    (newUsageCell (TCell.mk 1 [] [TCell.mk 2 [] []])).load_reference
        (some (UsageTreeState.new .onLoad)) 5 =
      (none, newUsageCell (TCell.mk 1 [] [TCell.mk 2 [] []]),
        some (UsageTreeState.new .onLoad)) ∧
    (newUsageCell (TCell.mk 1 [] [TCell.mk 2 [] []])).load_reference
        (some (UsageTreeState.new .onLoad)) 0 =
      (some (newUsageCell (TCell.mk 2 [] [])),
        (newUsageCell (TCell.mk 1 [] [TCell.mk 2 [] []])).setChild 0
          (some (newUsageCell (TCell.mk 2 [] []))),
        some ((UsageTreeState.new .onLoad).insert (TCell.mk 2 [] []) .onLoad)) ∧
    ((newUsageCell (TCell.mk 1 [] [TCell.mk 2 [] []])).setChild 0
        (some (newUsageCell (TCell.mk 2 [] [])))).load_reference none 0 =
      (some (newUsageCell (TCell.mk 2 [] [])),
        (newUsageCell (TCell.mk 1 [] [TCell.mk 2 [] []])).setChild 0
          (some (newUsageCell (TCell.mk 2 [] []))),
        none) := by
  refine ⟨?_, ?_, ?_⟩
  · exact usage_cell_load_reference_memoized.1 _ _ 5 (by omega)
  · exact usage_cell_load_reference_memoized.2.1
      (newUsageCell (TCell.mk 1 [] [TCell.mk 2 [] []]))
      (some (UsageTreeState.new .onLoad)) 0 (TCell.mk 2 [] [])
      (by omega) rfl rfl
  · exact usage_cell_load_reference_memoized.2.2
      (newUsageCell (TCell.mk 1 [] [TCell.mk 2 [] []]))
      (some (UsageTreeState.new .onLoad)) 0 _ _ _
      (usage_cell_load_reference_memoized.2.1
        (newUsageCell (TCell.mk 1 [] [TCell.mk 2 [] []]))
        (some (UsageTreeState.new .onLoad)) 0 (TCell.mk 2 [] [])
        (by omega) rfl rfl) none

/-- Claim C8: once the usage-tree state has been dropped (the weak
back-reference no longer upgrades, modelled by the `none` tree argument),
an outstanding usage cell is a transparent pass-through: `data` returns the
inner cell's data with no insertion, `load_reference` never produces a tree
state (no insertion into any visited map), and on an unpopulated in-range
slot the loaded wrapper's inner cell is exactly the inner cell's resolved
reference. -/
theorem usage_cell_transparent_after_drop :
    (∀ uc : UsageCell, uc.data none = (uc.cell.data, none)) ∧
      (∀ (uc : UsageCell) (i : Nat), (uc.load_reference none i).2.2 = none) ∧
      (∀ (uc : UsageCell) (i : Nat), i < 4 → uc.getChild i = none →
        ((uc.load_reference none i).1).map UsageCell.cell =
          uc.cell.reference_cloned i) := by
  refine ⟨?_, ?_, ?_⟩
  · intro uc; rfl
  · intro uc i
    unfold UsageCell.load_reference
    by_cases hi : i < 4
    · rw [if_pos hi]
      cases hslot : uc.getChild i with
      | some value => rfl
      | none =>
          cases href : uc.cell.reference_cloned i with
          | none => rfl
          | some child => rfl
    · rw [if_neg hi]
  · intro uc i hi hslot
    unfold UsageCell.load_reference
    rw [if_pos hi, hslot]
    cases href : uc.cell.reference_cloned i with
    | none => rfl
    | some child => rfl

/-- Witness for C8: with the tree dropped, a fresh wrapper's data and first
reference match the inner cell's. -/
theorem usage_cell_transparent_after_drop_witness :
    (newUsageCell (TCell.mk 1 [9] [TCell.mk 2 [] []])).data none =
      ((TCell.mk 1 [9] [TCell.mk 2 [] []]).data, none) ∧
    ((newUsageCell (TCell.mk 1 [9] [TCell.mk 2 [] []])).load_reference
        none 0).2.2 = none ∧
    (((newUsageCell (TCell.mk 1 [9] [TCell.mk 2 [] []])).load_reference
        none 0).1).map UsageCell.cell =
      (TCell.mk 1 [9] [TCell.mk 2 [] []]).reference_cloned 0 :=
  ⟨usage_cell_transparent_after_drop.1 _,
    usage_cell_transparent_after_drop.2.1 _ 0,
    usage_cell_transparent_after_drop.2.2 _ 0 (by omega) rfl⟩

/-! Section: Shared handles and destructive traversal (C6). -/

/-- Modelled from the spec: `Arc` reference counting is provided by the
standard library (an external collaborator).  A handle records the strong
count of its allocation; `Arc::get_mut` yields mutable access only for the
unique owner. -/
structure ArcCell where
  strong : Nat
  cell : TCell

/-- Source: `TryAsMut for Cell` (`src/cell/cell_impl/sync.rs` lines
112–117), delegating to `Arc::get_mut`: mutable access iff uniquely
owned. -/
def ArcCell.try_as_mut (h : ArcCell) : Option TCell :=
  if h.strong = 1 then some h.cell else none

/-- Modelled from the spec: the inner cell's destructive `take_first_child`
(spec §4.3, §6; the concrete cell implementations are not under `src/`):
remove and return the first child reference. -/
def tcellTakeFirstChild (c : TCell) : Option TCell × TCell :=
  match c.refs with
  | [] => (none, c)
  | r :: rest => (some r, .mk c.repr_hash c.data rest)

/-- Modelled from the spec: the inner cell's destructive
`replace_first_child` (spec §4.3): swap the first child with `parent`,
returning the previous first child; `Err(parent)` when there is none. -/
def tcellReplaceFirstChild (c : TCell) (parent : TCell) :
    Except TCell TCell × TCell :=
  match c.refs with
  | [] => (.error parent, c)
  | r :: rest => (.ok r, .mk c.repr_hash c.data (parent :: rest))

/-- Modelled from the spec: the inner cell's destructive `take_next_child`
(spec §4.3): remove and return the next (last) child reference. -/
def tcellTakeNextChild (c : TCell) : Option TCell × TCell :=
  match c.refs.getLast? with
  | none => (none, c)
  | some r => (some r, .mk c.repr_hash c.data c.refs.dropLast)

/-- Source: `UsageCell` `take_first_child` (`src/cell/usage_tree.rs` lines
134–136): `self.cell.try_as_mut()?.take_first_child()`. -/
def usageTakeFirstChild (h : ArcCell) : Option TCell × ArcCell :=
  match h.try_as_mut with
  | none => (none, h)
  | some c =>
      let (r, c) := tcellTakeFirstChild c
      (r, ⟨h.strong, c⟩)

/-- Source: `UsageCell` `replace_first_child` (`src/cell/usage_tree.rs`
lines 138–143): on a shared inner handle, return `Err(parent)` unchanged. -/
def usageReplaceFirstChild (h : ArcCell) (parent : TCell) :
    Except TCell TCell × ArcCell :=
  match h.try_as_mut with
  | none => (.error parent, h)
  | some c =>
      let (r, c) := tcellReplaceFirstChild c parent
      (r, ⟨h.strong, c⟩)

/-- Source: `UsageCell` `take_next_child` (`src/cell/usage_tree.rs` lines
145–147): `self.cell.try_as_mut()?.take_next_child()`. -/
def usageTakeNextChild (h : ArcCell) : Option TCell × ArcCell :=
  match h.try_as_mut with
  | none => (none, h)
  | some c =>
      let (r, c) := tcellTakeNextChild c
      (r, ⟨h.strong, c⟩)

/-- Claim C6: on a shared handle (strong count above one) the destructive
traversal operations fail gracefully without modifying the cell:
`try_as_mut` is `none`, `take_first_child`/`take_next_child` return `none`
leaving the handle unchanged, and `replace_first_child parent` returns
`Err parent` with the handle unchanged; and `try_as_mut` can only succeed
on a uniquely owned handle. -/
theorem shared_handle_destructive_ops_fail (h : ArcCell)
    (hshared : 1 < h.strong) (parent : TCell) :
    h.try_as_mut = none ∧
      usageTakeFirstChild h = (none, h) ∧
      usageTakeNextChild h = (none, h) ∧
      usageReplaceFirstChild h parent = (.error parent, h) ∧
      (∀ c, ArcCell.try_as_mut h ≠ some c) ∧
      (∀ (h' : ArcCell) (c : TCell), h'.try_as_mut = some c → h'.strong = 1) := by
  have hne : h.strong ≠ 1 := by omega
  have hmut : h.try_as_mut = none := by simp [ArcCell.try_as_mut, hne]
  refine ⟨hmut, ?_, ?_, ?_, ?_, ?_⟩
  · simp [usageTakeFirstChild, hmut]
  · simp [usageTakeNextChild, hmut]
  · simp [usageReplaceFirstChild, hmut]
  · intro c hc; rw [hmut] at hc; cases hc
  · intro h' c hc
    by_contra hne'
    simp [ArcCell.try_as_mut, hne'] at hc

/-- Witness for C6: a handle with two strong references refuses all
destructive operations. -/
theorem shared_handle_destructive_ops_fail_witness :
    (ArcCell.mk 2 (TCell.mk 1 [] [])).try_as_mut = none ∧
      usageTakeFirstChild (ArcCell.mk 2 (TCell.mk 1 [] [])) =
        (none, ArcCell.mk 2 (TCell.mk 1 [] [])) ∧
      usageTakeNextChild (ArcCell.mk 2 (TCell.mk 1 [] [])) =
        (none, ArcCell.mk 2 (TCell.mk 1 [] [])) ∧
      usageReplaceFirstChild (ArcCell.mk 2 (TCell.mk 1 [] []))
          (TCell.mk 9 [] []) =
        (.error (TCell.mk 9 [] []), ArcCell.mk 2 (TCell.mk 1 [] [])) ∧
      (∀ c, (ArcCell.mk 2 (TCell.mk 1 [] [])).try_as_mut ≠ some c) ∧
      (∀ (h' : ArcCell) (c : TCell), h'.try_as_mut = some c → h'.strong = 1) :=
  shared_handle_destructive_ops_fail (ArcCell.mk 2 (TCell.mk 1 [] []))
    (by decide) (TCell.mk 9 [] [])

/-! Section: Bit-level serialization model (builder, slice). -/

/-- Source: the error taxonomy (`src/error.rs` is not part of the excerpt;
variants per spec §4.8). -/
inductive Error where
  | cellUnderflow
  | cellOverflow
  | invalidTag
  | invalidData
  | invalidCell
  | intOverflow
deriving DecidableEq

/-- Observable content of a finalized cell for the model layer: the payload
bit string and the child references (spec §3.1). -/
inductive Cell where
  | mk (bits : List Bool) (refs : List Cell)

/-- Payload bits of a cell. -/
def Cell.bits : Cell → List Bool
  | .mk b _ => b

/-- Child references of a cell. -/
def Cell.refs : Cell → List Cell
  | .mk _ r => r

/-- Big-endian encoding of `v` in exactly `width` bits (high bits of `v`
beyond the width are dropped, as the Rust integer types make them
unrepresentable). -/
def natToBits : Nat → Nat → List Bool
  | 0, _ => []
  | width + 1, v => natToBits width (v >>> 1) ++ [v % 2 == 1]

/-- Big-endian decoding of a bit string. -/
def bitsToNat (bits : List Bool) : Nat :=
  bits.foldl (fun acc b => 2 * acc + (if b then 1 else 0)) 0

/-- Modelled from the spec: the `CellBuilder` bit writer (§4.4) is outside
the excerpt.  It accumulates up to 1023 bits and up to 4 references,
refusing overflow with `CellOverflow`. -/
structure CellBuilder where
  bits : List Bool
  refs : List Cell

/-- Fresh empty builder (`CellBuilder::new`). -/
def CellBuilder.new : CellBuilder :=
  ⟨[], []⟩

/-- Append raw bits, enforcing the 1023-bit capacity (spec §4.4, §7). -/
def CellBuilder.store_bits (b : CellBuilder) (xs : List Bool) :
    Except Error CellBuilder :=
  if b.bits.length + xs.length ≤ 1023 then .ok ⟨b.bits ++ xs, b.refs⟩
  else .error .cellOverflow

/-- Store one bit (`store_bit`). -/
def CellBuilder.store_bit (b : CellBuilder) (x : Bool) :
    Except Error CellBuilder :=
  b.store_bits [x]

/-- Store an unsigned integer of the given width, big-endian
(`store_u8`/`store_u16`/.../`store_u256`, `store_small_uint`). -/
def CellBuilder.store_uint (b : CellBuilder) (value width : Nat) :
    Except Error CellBuilder :=
  b.store_bits (natToBits width value)

/-- Store a child reference, enforcing the 4-reference capacity
(`store_reference`). -/
def CellBuilder.store_reference (b : CellBuilder) (cell : Cell) :
    Except Error CellBuilder :=
  if b.refs.length + 1 ≤ 4 then .ok ⟨b.bits, b.refs ++ [cell]⟩
  else .error .cellOverflow

/-- Finalize the builder into a cell (`build_ext`; hashing performed by the
finalizer does not change the observable payload or references). -/
def CellBuilder.build (b : CellBuilder) : Cell :=
  .mk b.bits b.refs

/-- Modelled from the spec: the `CellSlice` read cursor (§4.4) is outside
the excerpt: residual payload bits and residual references. -/
structure CellSlice where
  bits : List Bool
  refs : List Cell

/-- Full slice over a cell (`as_slice`). -/
def Cell.asSlice (c : Cell) : CellSlice :=
  ⟨c.bits, c.refs⟩

/-- Load an unsigned big-endian integer of the given width
(`load_u8`/.../`load_u64`, `load_u256`, `load_small_uint`); fails with
`CellUnderflow` past the end (spec §7). -/
def CellSlice.load_uint (s : CellSlice) (width : Nat) :
    Except Error (Nat × CellSlice) :=
  if width ≤ s.bits.length then
    .ok (bitsToNat (s.bits.take width), ⟨s.bits.drop width, s.refs⟩)
  else .error .cellUnderflow

/-- Load a single bit (`load_bit`). -/
def CellSlice.load_bit (s : CellSlice) : Except Error (Bool × CellSlice) :=
  match s.bits with
  | x :: rest => .ok (x, ⟨rest, s.refs⟩)
  | [] => .error .cellUnderflow

/-- Load the next child reference as an owned cell (`load_reference_cloned`). -/
def CellSlice.load_reference_cloned (s : CellSlice) :
    Except Error (Cell × CellSlice) :=
  match s.refs with
  | c :: rest => .ok (c, ⟨s.bits, rest⟩)
  | [] => .error .cellUnderflow

/-- Load the next child reference and descend into it
(`load_reference_as_slice`). -/
def CellSlice.load_reference_as_slice (s : CellSlice) :
    Except Error (CellSlice × CellSlice) :=
  match s.refs with
  | c :: rest => .ok (c.asSlice, ⟨s.bits, rest⟩)
  | [] => .error .cellUnderflow

theorem natToBits_length (width v : Nat) : (natToBits width v).length = width := by
  induction width generalizing v with
  | zero => rfl
  | succ n ih => simp [natToBits, ih]

theorem bitsToNat_append_acc (xs : List Bool) (acc : Nat) :
    xs.foldl (fun acc b => 2 * acc + (if b then 1 else 0)) acc =
      acc * 2 ^ xs.length + bitsToNat xs := by
  induction xs generalizing acc with
  | nil => simp [bitsToNat]
  | cons x rest ih =>
      simp only [List.foldl_cons, List.length_cons, bitsToNat]
      rw [ih, ih (2 * 0 + (if x then 1 else 0))]
      ring

theorem bitsToNat_natToBits (width v : Nat) (h : v < 2 ^ width) :
    bitsToNat (natToBits width v) = v := by
  induction width generalizing v with
  | zero => interval_cases v; rfl
  | succ n ih =>
      have hv2 : v >>> 1 < 2 ^ n := by
        rw [Nat.shiftRight_one]
        omega
      simp only [natToBits, bitsToNat, List.foldl_append, List.foldl_cons,
        List.foldl_nil]
      have hpref : (natToBits n (v >>> 1)).foldl
          (fun acc b => 2 * acc + (if b then 1 else 0)) 0 = v >>> 1 :=
        ih (v >>> 1) hv2
      rw [hpref, Nat.shiftRight_one]
      rcases Nat.mod_two_eq_zero_or_one v with hm | hm <;> simp [hm] <;> omega

theorem load_uint_append (v width : Nat) (rest : List Bool) (refs : List Cell)
    (h : v < 2 ^ width) :
    CellSlice.load_uint ⟨natToBits width v ++ rest, refs⟩ width =
      .ok (v, ⟨rest, refs⟩) := by
  unfold CellSlice.load_uint
  have hlen : (natToBits width v).length = width := natToBits_length width v
  rw [if_pos (by simp only [List.length_append, hlen]; omega)]
  rw [List.take_left' hlen, List.drop_left' hlen]
  rw [bitsToNat_natToBits width v h]

theorem load_bit_append (x : Bool) (rest : List Bool) (refs : List Cell) :
    CellSlice.load_bit ⟨x :: rest, refs⟩ = .ok (x, ⟨rest, refs⟩) := rfl

theorem store_bits_ok (b : CellBuilder) (xs : List Bool)
    (h : b.bits.length + xs.length ≤ 1023) :
    b.store_bits xs = .ok ⟨b.bits ++ xs, b.refs⟩ := by
  unfold CellBuilder.store_bits
  rw [if_pos h]

theorem store_uint_ok (b : CellBuilder) (v width : Nat)
    (h : b.bits.length + width ≤ 1023) :
    b.store_uint v width = .ok ⟨b.bits ++ natToBits width v, b.refs⟩ := by
  unfold CellBuilder.store_uint
  exact store_bits_ok b _ (by rw [natToBits_length]; exact h)

theorem store_reference_ok (b : CellBuilder) (c : Cell)
    (h : b.refs.length ≤ 3) :
    b.store_reference c = .ok ⟨b.bits, b.refs ++ [c]⟩ := by
  unfold CellBuilder.store_reference
  rw [if_pos (by omega)]

theorem okBind {α β : Type} (a : α) (f : α → Except Error β) :
    (Except.ok a >>= f) = f a := rfl

theorem errBind {α β : Type} (e : Error) (f : α → Except Error β) :
    ((Except.error e : Except Error α) >>= f) = .error e := rfl

theorem bind_ok_inv {α β : Type} (x : Except Error α) (f : α → Except Error β)
    (b : β) (h : (x >>= f) = .ok b) : ∃ a, x = .ok a ∧ f a = .ok b := by
  cases x with
  | ok a => exact ⟨a, rfl, h⟩
  | error e => rw [errBind] at h; cases h

theorem store_bits_inv (b : CellBuilder) (xs : List Bool) (b' : CellBuilder)
    (h : b.store_bits xs = .ok b') : b' = ⟨b.bits ++ xs, b.refs⟩ := by
  unfold CellBuilder.store_bits at h
  by_cases hc : b.bits.length + xs.length ≤ 1023
  · rw [if_pos hc] at h
    cases h
    rfl
  · rw [if_neg hc] at h
    cases h

theorem store_uint_inv (b : CellBuilder) (v w : Nat) (b' : CellBuilder)
    (h : b.store_uint v w = .ok b') : b' = ⟨b.bits ++ natToBits w v, b.refs⟩ :=
  store_bits_inv b _ b' h

theorem store_reference_inv (b : CellBuilder) (c : Cell) (b' : CellBuilder)
    (h : b.store_reference c = .ok b') : b' = ⟨b.bits, b.refs ++ [c]⟩ := by
  unfold CellBuilder.store_reference at h
  by_cases hc : b.refs.length + 1 ≤ 4
  · rw [if_pos hc] at h
    cases h
    rfl
  · rw [if_neg hc] at h
    cases h

theorem asSlice_mk (bits : List Bool) (refs : List Cell) :
    (Cell.mk bits refs).asSlice = ⟨bits, refs⟩ := rfl

theorem load_ref_slice_cons (bs : List Bool) (c : Cell) (rs : List Cell) :
    CellSlice.load_reference_as_slice ⟨bs, c :: rs⟩ =
      .ok (c.asSlice, ⟨bs, rs⟩) := rfl

theorem load_ref_cloned_cons (bs : List Bool) (c : Cell) (rs : List Cell) :
    CellSlice.load_reference_cloned ⟨bs, c :: rs⟩ = .ok (c, ⟨bs, rs⟩) := rfl

/-! Section: Domain codecs (model layer collaborators). -/

/-- Modelled from the spec: `Store`/`Load` for `Option<Cell>` is part of the
bit I/O layer (§6): one presence bit, then the cell as a reference when
present. -/
def storeOptionCell (v : Option Cell) (b : CellBuilder) :
    Except Error CellBuilder := do
  match v with
  | none => b.store_bit false
  | some c =>
      let b ← b.store_bit true
      b.store_reference c

/-- Modelled from the spec: loading an `Option<Cell>` mirrors the storing
side: presence bit, then the reference. -/
def loadOptionCell (s : CellSlice) : Except Error (Option Cell × CellSlice) := do
  let (x, s) ← s.load_bit
  if x then
    let (c, s) ← s.load_reference_cloned
    .ok (some c, s)
  else
    .ok (none, s)

/-- Modelled from the spec: the dictionary layer is out of scope (§1); a
`Dict` is identified with its ordered entry list (key, raw value cell).
Equality of Rust `Dict` values is equality of their root cells, which the
injective chain encoding below mirrors. -/
abbrev Dict := List (Nat × Cell)

/-- Modelled from the spec: injective cell encoding of a non-empty
dictionary: each chain cell stores the 32-bit key and a has-next flag in its
bits, the raw value as the first reference, and the next chain cell (when
any) as the second. -/
def dictRoot : Nat × Cell → Dict → Cell
  | (k, v), [] => .mk (natToBits 32 k ++ [false]) [v]
  | (k, v), e :: rest => .mk (natToBits 32 k ++ [true]) [v, dictRoot e rest]

/-- Modelled from the spec: inverse of `dictRoot`; any cell outside the
image of the encoding is rejected as `InvalidData`. -/
def parseDictRoot : Cell → Except Error Dict
  | .mk bits refs =>
      match refs with
      | [v] =>
          if bits.length = 33 ∧ bits.getLast? = some false then
            .ok [(bitsToNat (bits.take 32), v)]
          else .error .invalidData
      | [v, rest] =>
          if bits.length = 33 ∧ bits.getLast? = some true then
            match parseDictRoot rest with
            | .ok tail => .ok ((bitsToNat (bits.take 32), v) :: tail)
            | .error err => .error err
          else .error .invalidData
      | _ => .error .invalidData

/-- Modelled from the spec: `Store` for `Dict` stores one presence bit and,
for a non-empty dictionary, the root cell as a reference. -/
def storeDict (d : Dict) (b : CellBuilder) : Except Error CellBuilder := do
  match d with
  | [] => b.store_bit false
  | e :: rest =>
      let b ← b.store_bit true
      b.store_reference (dictRoot e rest)

/-- Modelled from the spec: `Load` for `Dict` mirrors the storing side. -/
def loadDict (s : CellSlice) : Except Error (Dict × CellSlice) := do
  let (x, s) ← s.load_bit
  if x then
    let (root, s) ← s.load_reference_cloned
    match parseDictRoot root with
    | .ok entries => .ok (entries, s)
    | .error err => .error err
  else
    .ok ([], s)

/-- Modelled from the spec: `AccountStatus` lives in the model layer outside
the excerpt; it round-trips through a two-bit tag. -/
inductive AccountStatus where
  | uninit
  | frozen
  | active
  | notExists
deriving DecidableEq

/-- Two-bit tag value of an account status. -/
def AccountStatus.toNat : AccountStatus → Nat
  | .uninit => 0
  | .frozen => 1
  | .active => 2
  | .notExists => 3

/-- Modelled from the spec: `Store for AccountStatus` stores the two-bit
tag. -/
def storeAccountStatus (st : AccountStatus) (b : CellBuilder) :
    Except Error CellBuilder :=
  b.store_uint st.toNat 2

/-- Modelled from the spec: `Load for AccountStatus` reads the two-bit
tag. -/
def loadAccountStatus (s : CellSlice) :
    Except Error (AccountStatus × CellSlice) := do
  let (v, s) ← s.load_uint 2
  match v with
  | 0 => .ok (.uninit, s)
  | 1 => .ok (.frozen, s)
  | 2 => .ok (.active, s)
  | 3 => .ok (.notExists, s)
  | _ => .error .invalidData

/-- Modelled from the spec: `CurrencyCollection` (token amount plus the
extra-currency dictionary) is out of scope; the token amount is encoded
here in a fixed 128-bit field (the variable-length `Tokens` codec is also
out of scope, and any injective round-tripping encoding serves), followed
by the extra dictionary as a presence bit and optional root reference. -/
structure CurrencyCollection where
  tokens : Nat
  other : Option Cell

/-- Modelled from the spec: `Store for CurrencyCollection`. -/
def storeCurrencyCollection (cc : CurrencyCollection) (b : CellBuilder) :
    Except Error CellBuilder := do
  let b ← b.store_uint cc.tokens 128
  storeOptionCell cc.other b

/-- Modelled from the spec: `Load for CurrencyCollection`. -/
def loadCurrencyCollection (s : CellSlice) :
    Except Error (CurrencyCollection × CellSlice) := do
  let (v, s) ← s.load_uint 128
  let (o, s) ← loadOptionCell s
  .ok (⟨v, o⟩, s)

/-! Section: Transaction (C4, C5). -/

/-- Source: `Transaction` (`src/models/transaction/mod.rs` lines 19–46).
`HashBytes` fields are 256-bit naturals, `Uint15` a 15-bit natural, and the
`Lazy<HashUpdate>`/`Lazy<TxInfo>` fields are modelled by their underlying
cells (`Lazy` stores and loads a plain reference and compares by cell). -/
structure Transaction where
  account : Nat
  lt : Nat
  prev_trans_hash : Nat
  prev_trans_lt : Nat
  now : Nat
  out_msg_count : Nat
  orig_status : AccountStatus
  end_status : AccountStatus
  in_msg : Option Cell
  out_msgs : Dict
  total_fees : CurrencyCollection
  state_update : Cell
  info : Cell

/-- Source: `Transaction::TAG` (`src/models/transaction/mod.rs` line 112),
the four-bit tag `0b0111`. -/
def Transaction.TAG : Nat := 7

/-- Source: `Store for Transaction` (`src/models/transaction/mod.rs` lines
115–142): build the child cell holding `in_msg` and `out_msgs`, then store
the tag, scalar fields, statuses, the child reference, total fees and the
two lazy references, in source order. -/
def Transaction.store_into (t : Transaction) (builder : CellBuilder) :
    Except Error CellBuilder := do
  let messages ← do
    let mb ← storeOptionCell t.in_msg CellBuilder.new
    let mb ← storeDict t.out_msgs mb
    Except.ok mb.build
  let builder ← builder.store_uint Transaction.TAG 4
  let builder ← builder.store_uint t.account 256
  let builder ← builder.store_uint t.lt 64
  let builder ← builder.store_uint t.prev_trans_hash 256
  let builder ← builder.store_uint t.prev_trans_lt 64
  let builder ← builder.store_uint t.now 32
  let builder ← builder.store_uint t.out_msg_count 15
  let builder ← storeAccountStatus t.orig_status builder
  let builder ← storeAccountStatus t.end_status builder
  let builder ← builder.store_reference messages
  let builder ← storeCurrencyCollection t.total_fees builder
  let builder ← builder.store_reference t.state_update
  builder.store_reference t.info

/-- Source: `Load for Transaction` (`src/models/transaction/mod.rs` lines
144–175): check the four-bit tag, descend into the first reference for
`in_msg` and `out_msgs`, then load the remaining fields in source order. -/
def Transaction.load_from (s : CellSlice) :
    Except Error (Transaction × CellSlice) := do
  let (tag, s) ← s.load_uint 4
  if tag ≠ Transaction.TAG then .error .invalidTag
  else do
    let (ms, s) ← s.load_reference_as_slice
    let (in_msg, ms) ← loadOptionCell ms
    let (out_msgs, _) ← loadDict ms
    let (account, s) ← s.load_uint 256
    let (lt, s) ← s.load_uint 64
    let (prev_trans_hash, s) ← s.load_uint 256
    let (prev_trans_lt, s) ← s.load_uint 64
    let (now, s) ← s.load_uint 32
    let (out_msg_count, s) ← s.load_uint 15
    let (orig_status, s) ← loadAccountStatus s
    let (end_status, s) ← loadAccountStatus s
    let (total_fees, s) ← loadCurrencyCollection s
    let (state_update, s) ← s.load_reference_cloned
    let (info, s) ← s.load_reference_cloned
    .ok (⟨account, lt, prev_trans_hash, prev_trans_lt, now, out_msg_count,
      orig_status, end_status, in_msg, out_msgs, total_fees, state_update,
      info⟩, s)

/-- Field bounds under which the scalar fields are representable in their
Rust integer types, plus representability of the dictionary keys in the
32-bit chain encoding. -/
def Transaction.wf (t : Transaction) : Bool :=
  decide (t.account < 2 ^ 256) && decide (t.lt < 2 ^ 64) &&
    decide (t.prev_trans_hash < 2 ^ 256) && decide (t.prev_trans_lt < 2 ^ 64) &&
    decide (t.now < 2 ^ 32) && decide (t.out_msg_count < 2 ^ 15) &&
    decide (t.total_fees.tokens < 2 ^ 128) &&
    t.out_msgs.all (fun e => e.1 < 2 ^ 32)

/-- Presence bit of an optional cell. -/
def optBits : Option Cell → List Bool
  | none => [false]
  | some _ => [true]

/-- Stored references of an optional cell. -/
def optRefs : Option Cell → List Cell
  | none => []
  | some c => [c]

/-- Presence bit of a dictionary. -/
def dictBits : Dict → List Bool
  | [] => [false]
  | _ :: _ => [true]

/-- Stored references of a dictionary. -/
def dictRefs : Dict → List Cell
  | [] => []
  | e :: rest => [dictRoot e rest]

/-- Two-bit encoding of an account status. -/
def statusBits (st : AccountStatus) : List Bool :=
  natToBits 2 st.toNat

/-- Bits stored by a currency collection. -/
def ccBits (cc : CurrencyCollection) : List Bool :=
  natToBits 128 cc.tokens ++ optBits cc.other

/-- References stored by a currency collection. -/
def ccRefs (cc : CurrencyCollection) : List Cell :=
  optRefs cc.other

/-- The child cell holding `in_msg` and `out_msgs`. -/
def msgsCell (t : Transaction) : Cell :=
  .mk (optBits t.in_msg ++ dictBits t.out_msgs)
    (optRefs t.in_msg ++ dictRefs t.out_msgs)

/-- Payload bits produced by storing a transaction into a fresh builder. -/
def txBits (t : Transaction) : List Bool :=
  natToBits 4 Transaction.TAG ++ (natToBits 256 t.account ++
    (natToBits 64 t.lt ++ (natToBits 256 t.prev_trans_hash ++
      (natToBits 64 t.prev_trans_lt ++ (natToBits 32 t.now ++
        (natToBits 15 t.out_msg_count ++ (statusBits t.orig_status ++
          (statusBits t.end_status ++ ccBits t.total_fees))))))))

/-- References produced by storing a transaction into a fresh builder. -/
def txRefs (t : Transaction) : List Cell :=
  msgsCell t :: (ccRefs t.total_fees ++ [t.state_update, t.info])

theorem optBits_length (v : Option Cell) : (optBits v).length = 1 := by
  cases v <;> rfl

theorem optRefs_length_le (v : Option Cell) : (optRefs v).length ≤ 1 := by
  cases v <;> simp [optRefs]

theorem dictBits_length (d : Dict) : (dictBits d).length = 1 := by
  cases d <;> rfl

theorem dictRefs_length_le (d : Dict) : (dictRefs d).length ≤ 1 := by
  cases d <;> simp [dictRefs]

theorem statusBits_length (st : AccountStatus) : (statusBits st).length = 2 := by
  cases st <;> rfl

theorem ccBits_length (cc : CurrencyCollection) : (ccBits cc).length = 129 := by
  simp [ccBits, natToBits_length, optBits_length]

theorem ccRefs_length_le (cc : CurrencyCollection) : (ccRefs cc).length ≤ 1 :=
  optRefs_length_le cc.other

theorem storeOptionCell_ok (v : Option Cell) (b : CellBuilder)
    (hb : b.bits.length ≤ 1022) (hr : b.refs.length ≤ 3) :
    storeOptionCell v b = .ok ⟨b.bits ++ optBits v, b.refs ++ optRefs v⟩ := by
  cases v with
  | none =>
      simp only [storeOptionCell, CellBuilder.store_bit]
      rw [store_bits_ok b [false] (by simp; omega)]
      simp [optBits, optRefs]
  | some c =>
      simp only [storeOptionCell, CellBuilder.store_bit]
      rw [store_bits_ok b [true] (by simp; omega), okBind]
      rw [store_reference_ok ⟨b.bits ++ [true], b.refs⟩ c (by simpa using hr)]
      simp [optBits, optRefs]

theorem loadOptionCell_append (v : Option Cell) (bs : List Bool)
    (rs : List Cell) :
    loadOptionCell ⟨optBits v ++ bs, optRefs v ++ rs⟩ = .ok (v, ⟨bs, rs⟩) := by
  cases v <;> rfl

theorem storeDict_ok (d : Dict) (b : CellBuilder)
    (hb : b.bits.length ≤ 1022) (hr : b.refs.length ≤ 3) :
    storeDict d b = .ok ⟨b.bits ++ dictBits d, b.refs ++ dictRefs d⟩ := by
  cases d with
  | nil =>
      simp only [storeDict, CellBuilder.store_bit]
      rw [store_bits_ok b [false] (by simp; omega)]
      simp [dictBits, dictRefs]
  | cons e rest =>
      simp only [storeDict, CellBuilder.store_bit]
      rw [store_bits_ok b [true] (by simp; omega), okBind]
      rw [store_reference_ok ⟨b.bits ++ [true], b.refs⟩ _ (by simpa using hr)]
      simp [dictBits, dictRefs]

theorem parseDictRoot_dictRoot (e : Nat × Cell) (rest : Dict)
    (hk : (e :: rest).all (fun x => decide (x.1 < 2 ^ 32)) = true) :
    parseDictRoot (dictRoot e rest) = .ok (e :: rest) := by
  induction rest generalizing e with
  | nil =>
      obtain ⟨k, v⟩ := e
      simp only [List.all_cons, Bool.and_eq_true, decide_eq_true_eq] at hk
      simp only [dictRoot, parseDictRoot]
      rw [if_pos ⟨by simp [natToBits_length], List.getLast?_concat _⟩]
      rw [List.take_left' (natToBits_length 32 k),
        bitsToNat_natToBits 32 k hk.1]
  | cons e2 rest2 ih =>
      obtain ⟨k, v⟩ := e
      have hk2 : (e2 :: rest2).all (fun x => decide (x.1 < 2 ^ 32)) = true := by
        simp only [List.all_cons, Bool.and_eq_true] at hk ⊢
        exact hk.2
      have hk1 : k < 2 ^ 32 := by
        simp only [List.all_cons, Bool.and_eq_true, decide_eq_true_eq] at hk
        exact hk.1
      simp only [dictRoot, parseDictRoot]
      rw [if_pos ⟨by simp [natToBits_length], List.getLast?_concat _⟩]
      rw [ih e2 hk2]
      rw [List.take_left' (natToBits_length 32 k),
        bitsToNat_natToBits 32 k hk1]

theorem loadDict_append (d : Dict) (bs : List Bool) (rs : List Cell)
    (hk : d.all (fun x => decide (x.1 < 2 ^ 32)) = true) :
    loadDict ⟨dictBits d ++ bs, dictRefs d ++ rs⟩ = .ok (d, ⟨bs, rs⟩) := by
  cases d with
  | nil => rfl
  | cons e rest =>
      simp only [loadDict, dictBits, dictRefs, List.singleton_append,
        load_bit_append, okBind, load_ref_cloned_cons, if_true,
        parseDictRoot_dictRoot e rest hk]

theorem storeAccountStatus_ok (st : AccountStatus) (b : CellBuilder)
    (hb : b.bits.length ≤ 1021) :
    storeAccountStatus st b = .ok ⟨b.bits ++ statusBits st, b.refs⟩ := by
  unfold storeAccountStatus statusBits
  exact store_uint_ok b st.toNat 2 (by omega)

theorem loadAccountStatus_append (st : AccountStatus) (bs : List Bool)
    (rs : List Cell) :
    loadAccountStatus ⟨statusBits st ++ bs, rs⟩ = .ok (st, ⟨bs, rs⟩) := by
  cases st
  case uninit =>
      show loadAccountStatus ⟨false :: false :: bs, rs⟩ = _
      simp only [loadAccountStatus, CellSlice.load_uint]
      rw [if_pos (by simp)]
      rfl
  case frozen =>
      show loadAccountStatus ⟨false :: true :: bs, rs⟩ = _
      simp only [loadAccountStatus, CellSlice.load_uint]
      rw [if_pos (by simp)]
      rfl
  case active =>
      show loadAccountStatus ⟨true :: false :: bs, rs⟩ = _
      simp only [loadAccountStatus, CellSlice.load_uint]
      rw [if_pos (by simp)]
      rfl
  case notExists =>
      show loadAccountStatus ⟨true :: true :: bs, rs⟩ = _
      simp only [loadAccountStatus, CellSlice.load_uint]
      rw [if_pos (by simp)]
      rfl

theorem storeCurrencyCollection_ok (cc : CurrencyCollection) (b : CellBuilder)
    (hb : b.bits.length + 129 ≤ 1023) (hr : b.refs.length ≤ 3) :
    storeCurrencyCollection cc b =
      .ok ⟨b.bits ++ ccBits cc, b.refs ++ ccRefs cc⟩ := by
  unfold storeCurrencyCollection
  rw [store_uint_ok b cc.tokens 128 (by omega), okBind]
  rw [storeOptionCell_ok cc.other ⟨b.bits ++ natToBits 128 cc.tokens, b.refs⟩
    (by simp [natToBits_length]; omega) (by simpa using hr)]
  simp [ccBits, ccRefs]

theorem loadCurrencyCollection_append (cc : CurrencyCollection)
    (bs : List Bool) (rs : List Cell) (htok : cc.tokens < 2 ^ 128) :
    loadCurrencyCollection ⟨ccBits cc ++ bs, ccRefs cc ++ rs⟩ =
      .ok (cc, ⟨bs, rs⟩) := by
  obtain ⟨tok, oth⟩ := cc
  simp only [loadCurrencyCollection, ccBits, ccRefs, List.append_assoc]
  rw [load_uint_append tok 128 _ _ htok, okBind]
  rw [loadOptionCell_append oth bs rs, okBind]

theorem loadDict_self (d : Dict)
    (hk : d.all (fun x => decide (x.1 < 2 ^ 32)) = true) :
    loadDict ⟨dictBits d, dictRefs d⟩ = .ok (d, ⟨[], []⟩) := by
  have h := loadDict_append d [] [] hk
  simpa using h

theorem storeOptionCell_inv (v : Option Cell) (b b' : CellBuilder)
    (h : storeOptionCell v b = .ok b') :
    b' = ⟨b.bits ++ optBits v, b.refs ++ optRefs v⟩ := by
  cases v with
  | none =>
      simp only [storeOptionCell, CellBuilder.store_bit] at h
      have e := store_bits_inv b [false] b' h
      simp [e, optBits, optRefs]
  | some c =>
      simp only [storeOptionCell, CellBuilder.store_bit] at h
      obtain ⟨b1, h1, h2⟩ := bind_ok_inv _ _ _ h
      have e1 := store_bits_inv b [true] b1 h1
      subst e1
      have e2 := store_reference_inv _ c b' h2
      simp [e2, optBits, optRefs]

theorem storeDict_inv (d : Dict) (b b' : CellBuilder)
    (h : storeDict d b = .ok b') :
    b' = ⟨b.bits ++ dictBits d, b.refs ++ dictRefs d⟩ := by
  cases d with
  | nil =>
      simp only [storeDict, CellBuilder.store_bit] at h
      have e := store_bits_inv b [false] b' h
      simp [e, dictBits, dictRefs]
  | cons e rest =>
      simp only [storeDict, CellBuilder.store_bit] at h
      obtain ⟨b1, h1, h2⟩ := bind_ok_inv _ _ _ h
      have e1 := store_bits_inv b [true] b1 h1
      subst e1
      have e2 := store_reference_inv _ (dictRoot e rest) b' h2
      simp [e2, dictBits, dictRefs]

theorem storeAccountStatus_inv (st : AccountStatus) (b b' : CellBuilder)
    (h : storeAccountStatus st b = .ok b') :
    b' = ⟨b.bits ++ statusBits st, b.refs⟩ := by
  unfold storeAccountStatus at h
  exact store_uint_inv b st.toNat 2 b' h

theorem storeCurrencyCollection_inv (cc : CurrencyCollection)
    (b b' : CellBuilder) (h : storeCurrencyCollection cc b = .ok b') :
    b' = ⟨b.bits ++ ccBits cc, b.refs ++ ccRefs cc⟩ := by
  unfold storeCurrencyCollection at h
  obtain ⟨b1, h1, h2⟩ := bind_ok_inv _ _ _ h
  have e1 := store_uint_inv b cc.tokens 128 b1 h1
  subst e1
  have e2 := storeOptionCell_inv cc.other _ b' h2
  simp [e2, ccBits, ccRefs, List.append_assoc]

theorem transaction_load_append (t : Transaction) (hwf : t.wf = true)
    (bs : List Bool) (rs : List Cell) :
    Transaction.load_from ⟨txBits t ++ bs, txRefs t ++ rs⟩ =
      .ok (t, ⟨bs, rs⟩) := by
  simp only [Transaction.wf, Bool.and_eq_true, decide_eq_true_eq] at hwf
  obtain ⟨⟨⟨⟨⟨⟨⟨h1, h2⟩, h3⟩, h4⟩, h5⟩, h6⟩, h7⟩, h8⟩ := hwf
  simp only [txBits, txRefs, List.cons_append, List.append_assoc]
  simp only [Transaction.load_from]
  rw [load_uint_append Transaction.TAG 4 _ _ (by decide)]
  simp only [okBind]
  rw [if_neg (by simp)]
  rw [load_ref_slice_cons]
  simp only [okBind, msgsCell, asSlice_mk]
  rw [loadOptionCell_append t.in_msg (dictBits t.out_msgs) (dictRefs t.out_msgs)]
  simp only [okBind]
  rw [loadDict_self t.out_msgs h8]
  simp only [okBind]
  rw [load_uint_append t.account 256 _ _ h1]
  simp only [okBind]
  rw [load_uint_append t.lt 64 _ _ h2]
  simp only [okBind]
  rw [load_uint_append t.prev_trans_hash 256 _ _ h3]
  simp only [okBind]
  rw [load_uint_append t.prev_trans_lt 64 _ _ h4]
  simp only [okBind]
  rw [load_uint_append t.now 32 _ _ h5]
  simp only [okBind]
  rw [load_uint_append t.out_msg_count 15 _ _ h6]
  simp only [okBind]
  rw [loadAccountStatus_append t.orig_status]
  simp only [okBind]
  rw [loadAccountStatus_append t.end_status]
  simp only [okBind]
  rw [loadCurrencyCollection_append t.total_fees _ _ h7]
  simp only [okBind]
  rw [load_ref_cloned_cons]
  simp only [okBind]
  rw [load_ref_cloned_cons]
  simp only [okBind]
  rfl

/-- Claim C4: for every well-formed transaction whose `store_into` into a fresh
builder succeeds, loading a `Transaction` back from the resulting cell
succeeds, consumes the whole slice, and yields a value equal to the original
(field by field, including the `in_msg`/`out_msgs` child cell and the 4-bit
tag `0b0111`). -/
theorem transaction_roundtrip (t : Transaction) (hwf : t.wf = true)
    (b : CellBuilder) (hs : t.store_into CellBuilder.new = .ok b) :
    Transaction.load_from b.build.asSlice = .ok (t, ⟨[], []⟩) := by
  unfold Transaction.store_into at hs
  obtain ⟨mb1, hm1, hs⟩ := bind_ok_inv _ _ _ hs
  have em1 := storeOptionCell_inv t.in_msg CellBuilder.new mb1 hm1
  subst em1
  obtain ⟨mb2, hm2, hs⟩ := bind_ok_inv _ _ _ hs
  have em2 := storeDict_inv t.out_msgs _ mb2 hm2
  subst em2
  obtain ⟨messages, hmsgs, hs⟩ := bind_ok_inv _ _ _ hs
  simp only [Except.ok.injEq] at hmsgs
  subst hmsgs
  obtain ⟨b1, h1, hs⟩ := bind_ok_inv _ _ _ hs
  have e1 := store_uint_inv CellBuilder.new Transaction.TAG 4 b1 h1
  subst e1
  obtain ⟨b2, h2, hs⟩ := bind_ok_inv _ _ _ hs
  have e2 := store_uint_inv _ t.account 256 b2 h2
  subst e2
  obtain ⟨b3, h3, hs⟩ := bind_ok_inv _ _ _ hs
  have e3 := store_uint_inv _ t.lt 64 b3 h3
  subst e3
  obtain ⟨b4, h4, hs⟩ := bind_ok_inv _ _ _ hs
  have e4 := store_uint_inv _ t.prev_trans_hash 256 b4 h4
  subst e4
  obtain ⟨b5, h5, hs⟩ := bind_ok_inv _ _ _ hs
  have e5 := store_uint_inv _ t.prev_trans_lt 64 b5 h5
  subst e5
  obtain ⟨b6, h6, hs⟩ := bind_ok_inv _ _ _ hs
  have e6 := store_uint_inv _ t.now 32 b6 h6
  subst e6
  obtain ⟨b7, h7, hs⟩ := bind_ok_inv _ _ _ hs
  have e7 := store_uint_inv _ t.out_msg_count 15 b7 h7
  subst e7
  obtain ⟨b8, h8, hs⟩ := bind_ok_inv _ _ _ hs
  have e8 := storeAccountStatus_inv t.orig_status _ b8 h8
  subst e8
  obtain ⟨b9, h9, hs⟩ := bind_ok_inv _ _ _ hs
  have e9 := storeAccountStatus_inv t.end_status _ b9 h9
  subst e9
  obtain ⟨b10, h10, hs⟩ := bind_ok_inv _ _ _ hs
  have e10 := store_reference_inv _ _ b10 h10
  subst e10
  obtain ⟨b11, h11, hs⟩ := bind_ok_inv _ _ _ hs
  have e11 := storeCurrencyCollection_inv t.total_fees _ b11 h11
  subst e11
  obtain ⟨b12, h12, hs⟩ := bind_ok_inv _ _ _ hs
  have e12 := store_reference_inv _ t.state_update b12 h12
  subst e12
  have e13 := store_reference_inv _ t.info b hs
  subst e13
  have h := transaction_load_append t hwf [] []
  simpa [CellBuilder.build, CellBuilder.new, asSlice_mk, txBits, txRefs,
    msgsCell, ccBits, ccRefs, List.append_assoc] using h

/-- Concrete transaction used as the round-trip witness input. -/
def txWitnessValue : Transaction :=
  ⟨1, 2, 3, 4, 5, 0, .active, .frozen, some (Cell.mk [true] []),
    [(0, Cell.mk [] [Cell.mk [false] []])], ⟨6, none⟩,
    Cell.mk [true, true] [], Cell.mk [false] []⟩

/-- Witness for C4: the concrete transaction round-trips. -/
theorem transaction_roundtrip_witness :
    Transaction.load_from
        (CellBuilder.build ⟨txBits txWitnessValue, txRefs txWitnessValue⟩).asSlice =
      .ok (txWitnessValue, ⟨[], []⟩) :=
  transaction_roundtrip txWitnessValue (by rfl)
    ⟨txBits txWitnessValue, txRefs txWitnessValue⟩ (by rfl)

/-! Section: Out-message iteration (C5). -/

/-- Modelled from the spec: `Message` parsing is out of scope (§1); a
message is identified with the slice of its cell, and parsing always
consumes it. -/
structure Message where
  slice : CellSlice

/-- Modelled from the spec: `Message::load_from` is out of scope; the
message is the slice content. -/
def Message.load_from (s : CellSlice) : Except Error Message :=
  .ok ⟨s⟩

/-- Source: `TxOutMsgIter::next` (`src/models/transaction/mod.rs` lines
90–109) run to completion: the dictionary's raw values are visited in
order; each value slice is descended into via `load_reference_as_slice`
and parsed as a message; the first error ends the iteration
(`RawValues::finish`). -/
def iterOutMsgs : Dict → List (Except Error Message)
  | [] => []
  | (_, v) :: rest =>
      match v.asSlice.load_reference_as_slice with
      | .ok (ms, _) =>
          match Message.load_from ms with
          | .ok m => .ok m :: iterOutMsgs rest
          | .error e => [.error e]
      | .error e => [.error e]

/-- Source: `Transaction::iter_out_msgs` (`src/models/transaction/mod.rs`
lines 72–77): iterate the raw values of `out_msgs`. -/
def Transaction.iter_out_msgs (t : Transaction) : List (Except Error Message) :=
  iterOutMsgs t.out_msgs

theorem iterOutMsgs_length (d : Dict)
    (h : ∀ r ∈ iterOutMsgs d, ∃ m, r = .ok m) :
    (iterOutMsgs d).length = d.length := by
  induction d with
  | nil => rfl
  | cons e rest ih =>
      obtain ⟨k, v⟩ := e
      simp only [iterOutMsgs] at h ⊢
      cases href : v.asSlice.load_reference_as_slice with
      | error err =>
          simp only [href] at h
          obtain ⟨m, hm⟩ := h (.error err) (by simp)
          cases hm
      | ok p =>
          obtain ⟨ms, s'⟩ := p
          simp only [href, Message.load_from] at h
          have htail : ∀ r ∈ iterOutMsgs rest, ∃ m, r = .ok m := by
            intro r hr
            exact h r (by simp [hr])
          simp only [Message.load_from, List.length_cons, ih htail]

/-- A loaded transaction whose stored counter disagrees with its (empty)
outbound dictionary. -/
def txCountMismatch : Transaction :=
  ⟨0, 0, 0, 0, 0, 1, .uninit, .uninit, none, [], ⟨0, none⟩,
    Cell.mk [] [], Cell.mk [] []⟩

/-- Counterexample for C5: a `Transaction` loads successfully with
`out_msg_count = 1` while its outbound dictionary is empty, so iterating
`iter_out_msgs` to completion without any error yields 0 items, not
`out_msg_count`; `load_from` performs no consistency check between the
two. -/
theorem iter_out_msgs_count_counterexample :
    Transaction.load_from
        (CellBuilder.build ⟨txBits txCountMismatch,
          txRefs txCountMismatch⟩).asSlice =
      .ok (txCountMismatch, ⟨[], []⟩) ∧
    txCountMismatch.out_msg_count = 1 ∧
    txCountMismatch.iter_out_msgs = [] := by
  refine ⟨?_, rfl, rfl⟩
  have h := transaction_load_append txCountMismatch (by rfl) [] []
  simpa [CellBuilder.build, asSlice_mk] using h

/-- Claim C5, amended: iterating `iter_out_msgs` to completion without
encountering an error yields exactly as many message items as the
`out_msgs` dictionary has entries.  (This count need not equal the stored
`out_msg_count` field: loading performs no consistency check between the
counter and the dictionary, as the counterexample shows; the two agree for
transactions stored from consistent values.) -/
theorem iter_out_msgs_count (t : Transaction)
    (h : ∀ r ∈ t.iter_out_msgs, ∃ m, r = .ok m) :
    t.iter_out_msgs.length = t.out_msgs.length :=
  iterOutMsgs_length t.out_msgs h

/-- Witness for C5's amended theorem: a transaction with one well-formed
outbound entry yields exactly one item. -/
theorem iter_out_msgs_count_witness :
    (Transaction.iter_out_msgs txWitnessValue).length =
      txWitnessValue.out_msgs.length := by
  refine iter_out_msgs_count txWitnessValue ?_
  intro r hr
  rw [show Transaction.iter_out_msgs txWitnessValue =
    [.ok ⟨⟨[false], []⟩⟩] from rfl] at hr
  rw [List.mem_singleton] at hr
  exact ⟨_, hr⟩

/-! Section: Validator sets (C9). -/

/-- Source: `ValidatorDescription` (`src/models/config/params.rs` lines
671–683): public key (256-bit), weight (64-bit), optional ADNL address
(256-bit) and activation seqno. -/
structure ValidatorDescription where
  public_key : Nat
  weight : Nat
  adnl_addr : Option Nat
  mc_seqno_since : Nat
deriving DecidableEq

/-- Source: `Load for ValidatorDescription` (`src/models/config/params.rs`
lines 727–757): dispatch on the tags `0x53`/`0x73`/`0x93`, check the
public-key tag `0x8e81278a`, then read the fields. -/
def ValidatorDescription.load_from (s : CellSlice) :
    Except Error (ValidatorDescription × CellSlice) := do
  let (tag, s) ← s.load_uint 8
  let flags ←
    if tag = 0x53 then Except.ok (false, false)
    else if tag = 0x73 then Except.ok (true, false)
    else if tag = 0x93 then Except.ok (true, true)
    else Except.error Error.invalidTag
  let (ptag, s) ← s.load_uint 32
  if ptag ≠ 0x8e81278a then Except.error Error.invalidTag
  else do
    let (public_key, s) ← s.load_uint 256
    let (weight, s) ← s.load_uint 64
    let (adnl_addr, s) ←
      if flags.1 then do
        let (a, s) ← s.load_uint 256
        Except.ok (some a, s)
      else Except.ok ((none : Option Nat), s)
    let (mc_seqno_since, s) ←
      if flags.2 then s.load_uint 32
      else Except.ok (0, s)
    Except.ok (⟨public_key, weight, adnl_addr, mc_seqno_since⟩, s)

/-- Modelled from the spec: `Dict::iter` for `Dict<u16,
ValidatorDescription>` parses each entry's raw value as a
`ValidatorDescription`, yielding `(key, value)` pairs in key order. -/
def dictIterVD (entries : Dict) :
    List (Except Error (Nat × ValidatorDescription)) :=
  entries.map (fun e =>
    match ValidatorDescription.load_from e.2.asSlice with
    | .ok (vd, _) => .ok (e.1, vd)
    | .error err => .error err)

/-- Source: the entry loop of `ValidatorSet::load_from`
(`src/models/config/params.rs` lines 635–646): check that the dictionary
key equals the running index, accumulate the computed total weight
(`u64` wrapping addition) and collect the descriptions. -/
def vsetLoop : List (Except Error (Nat × ValidatorDescription)) → Nat → Nat →
    List ValidatorDescription → Except Error (Nat × List ValidatorDescription)
  | [], _, acc, list => .ok (acc, list.reverse)
  | item :: rest, i, acc, list =>
      match item with
      | .error err => .error err
      | .ok (idx, descr) =>
          if idx = i then
            vsetLoop rest (i + 1) ((acc + descr.weight) % 2 ^ 64)
              (descr :: list)
          else .error .invalidData

/-- Source: `ValidatorSet` (`src/models/config/params.rs` lines 561–572);
`main` is a `NonZeroU16`, modelled as a natural that loading guarantees to
be nonzero. -/
structure ValidatorSet where
  utime_since : Nat
  utime_until : Nat
  main : Nat
  total_weight : Nat
  list : List ValidatorDescription
deriving DecidableEq

/-- Modelled from the spec: `Load for NonZeroU16` is not under `src/`:
a 16-bit value, with zero rejected as `InvalidData`. -/
def loadNonZeroU16 (s : CellSlice) : Except Error (Nat × CellSlice) := do
  let (v, s) ← s.load_uint 16
  if v = 0 then .error .invalidData else .ok (v, s)

/-- Modelled from the spec: `Dict::load_from_root_ext` (the tag `0x11`
path) reads a non-empty dictionary root directly from the slice; the
layout mirrors the chain encoding of `dictRoot` (32-bit key, has-next
flag, value reference, optional next-chain reference). -/
def loadDictRootInline (s : CellSlice) : Except Error (Dict × CellSlice) := do
  let (k, s) ← s.load_uint 32
  let (hasNext, s) ← s.load_bit
  let (v, s) ← s.load_reference_cloned
  if hasNext then do
    let (next, s) ← s.load_reference_cloned
    match parseDictRoot next with
    | .ok tail => .ok ((k, v) :: tail, s)
    | .error err => .error err
  else .ok ([(k, v)], s)

/-- Source: `Load for ValidatorSet` (`src/models/config/params.rs` lines
605–668): dispatch on the tags `0x11`/`0x12`, read the header fields,
reject `main > total`, read (tag `0x12`) or compute (tag `0x11`) the total
weight over the first `total` dictionary entries, reject an empty list,
and for tag `0x12` reject a stored total weight that differs from the
computed one. -/
def ValidatorSet.load_from (s : CellSlice) :
    Except Error (ValidatorSet × CellSlice) := do
  let (tagByte, s) ← s.load_uint 8
  let with_total_weight ←
    if tagByte = 0x11 then Except.ok false
    else if tagByte = 0x12 then Except.ok true
    else Except.error Error.invalidTag
  let (utime_since, s) ← s.load_uint 32
  let (utime_until, s) ← s.load_uint 32
  let (total, s) ← s.load_uint 16
  let (main, s) ← loadNonZeroU16 s
  if main > total then Except.error Error.invalidData
  else do
    let (total_weight, validators, s) ←
      if with_total_weight then do
        let (tw, s) ← s.load_uint 64
        let (d, s) ← loadDict s
        Except.ok (tw, d, s)
      else do
        let (d, s) ← loadDictRootInline s
        Except.ok (0, d, s)
    match vsetLoop ((dictIterVD validators).take total) 0 0 [] with
    | .error err => .error err
    | .ok (computed_total_weight, list) =>
        if list.isEmpty then .error .invalidData
        else if with_total_weight then
          if total_weight ≠ computed_total_weight then .error .invalidData
          else .ok (⟨utime_since, utime_until, main, total_weight, list⟩, s)
        else
          .ok (⟨utime_since, utime_until, main, computed_total_weight, list⟩, s)

/-- Parse-level facts that `ValidatorSet.load_from` guarantees about an
`Ok` result: the header fields are read in order from the slice, `main`
does not exceed the stored `total` field, the dictionary is obtained per
the tag (inline root for `0x11`; stored total weight then dictionary for
`0x12`), the loaded list has length `min (dictionary size) total`, and
the dictionary keys of the loaded entries are exactly `0..len(list)`. -/
def vsetParseFacts (s : CellSlice) (vs : ValidatorSet) (rest : CellSlice) : Prop :=
  ∃ tagByte s1 s2 s3 total s4 s5 d,
    s.load_uint 8 = Except.ok (tagByte, s1) ∧
    s1.load_uint 32 = Except.ok (vs.utime_since, s2) ∧
    s2.load_uint 32 = Except.ok (vs.utime_until, s3) ∧
    s3.load_uint 16 = Except.ok (total, s4) ∧
    loadNonZeroU16 s4 = Except.ok (vs.main, s5) ∧
    vs.main ≤ total ∧
    ((tagByte = 0x11 ∧ loadDictRootInline s5 = Except.ok (d, rest)) ∨
      (tagByte = 0x12 ∧ ∃ s6, s5.load_uint 64 = Except.ok (vs.total_weight, s6) ∧
        loadDict s6 = Except.ok (d, rest))) ∧
    vs.list.length = min d.length total ∧
    (d.take vs.list.length).map Prod.fst = List.range vs.list.length

/-- Error-direction facts of `ValidatorSet.load_from`: each checked
condition, violated at the point where the parser checks it, makes
loading fail with `InvalidData`: a `main` count exceeding the stored
`total`, a dictionary key different from its running index in the entry
loop, an empty loaded entry list (reachable with tag `0x12` and an empty
dictionary; a tag-`0x11` inline root always holds an entry), and a
tag-`0x12` stored total weight that differs from the computed one. -/
def vsetChecksEnforced : Prop :=
  (∀ (s : CellSlice) tagByte s1 us s2 uu s3 total s4 mainv s5,
    s.load_uint 8 = Except.ok (tagByte, s1) →
    (tagByte = 0x11 ∨ tagByte = 0x12) →
    s1.load_uint 32 = Except.ok (us, s2) →
    s2.load_uint 32 = Except.ok (uu, s3) →
    s3.load_uint 16 = Except.ok (total, s4) →
    loadNonZeroU16 s4 = Except.ok (mainv, s5) →
    total < mainv →
    ValidatorSet.load_from s = Except.error Error.invalidData) ∧
  (∀ (idx : Nat) (dsc : ValidatorDescription) items (i acc : Nat) lst,
    idx ≠ i →
    vsetLoop (Except.ok (idx, dsc) :: items) i acc lst =
      Except.error Error.invalidData) ∧
  (∀ (s : CellSlice) s1 us s2 uu s3 total s4 mainv s5 tw s6 d s7,
    s.load_uint 8 = Except.ok (0x12, s1) →
    s1.load_uint 32 = Except.ok (us, s2) →
    s2.load_uint 32 = Except.ok (uu, s3) →
    s3.load_uint 16 = Except.ok (total, s4) →
    loadNonZeroU16 s4 = Except.ok (mainv, s5) →
    mainv ≤ total →
    s5.load_uint 64 = Except.ok (tw, s6) →
    loadDict s6 = Except.ok (d, s7) →
    (dictIterVD d).take total = [] →
    ValidatorSet.load_from s = Except.error Error.invalidData) ∧
  (∀ (s : CellSlice) s1 us s2 uu s3 total s4 mainv s5 tw s6 d s7 ctw list,
    s.load_uint 8 = Except.ok (0x12, s1) →
    s1.load_uint 32 = Except.ok (us, s2) →
    s2.load_uint 32 = Except.ok (uu, s3) →
    s3.load_uint 16 = Except.ok (total, s4) →
    loadNonZeroU16 s4 = Except.ok (mainv, s5) →
    mainv ≤ total →
    s5.load_uint 64 = Except.ok (tw, s6) →
    loadDict s6 = Except.ok (d, s7) →
    vsetLoop ((dictIterVD d).take total) 0 0 [] = Except.ok (ctw, list) →
    list ≠ [] →
    tw ≠ ctw →
    ValidatorSet.load_from s = Except.error Error.invalidData)

theorem loadNonZeroU16_pos (s : CellSlice) (v : Nat) (s' : CellSlice)
    (h : loadNonZeroU16 s = .ok (v, s')) : 1 ≤ v := by
  unfold loadNonZeroU16 at h
  obtain ⟨⟨w, sw⟩, _, h⟩ := bind_ok_inv _ _ _ h
  simp only [] at h
  by_cases hz : w = 0
  · simp [hz] at h
  · simp only [if_neg hz, Except.ok.injEq, Prod.mk.injEq] at h
    omega

theorem vsetLoop_ok (items : List (Except Error (Nat × ValidatorDescription)))
    (i acc : Nat) (lst : List ValidatorDescription) (w : Nat)
    (l : List ValidatorDescription)
    (h : vsetLoop items i acc lst = .ok (w, l)) :
    ∃ ds, l = lst.reverse ++ ds ∧
      w = ds.foldl (fun a d => (a + d.weight) % 2 ^ 64) acc := by
  induction items generalizing i acc lst with
  | nil =>
      simp only [vsetLoop, Except.ok.injEq, Prod.mk.injEq] at h
      obtain ⟨hw, hl⟩ := h
      refine ⟨[], ?_, hw.symm⟩
      rw [← hl]
      simp
  | cons item rest ih =>
      cases item with
      | error err => simp only [vsetLoop] at h; cases h
      | ok p =>
          obtain ⟨idx, descr⟩ := p
          simp only [vsetLoop] at h
          by_cases hidx : idx = i
          · rw [if_pos hidx] at h
            obtain ⟨ds, hl, hw⟩ := ih _ _ _ h
            refine ⟨descr :: ds, ?_, ?_⟩
            · rw [hl]
              simp
            · rw [hw]
              simp
          · rw [if_neg hidx] at h
            cases h

theorem vsetLoop_shape (items : List (Except Error (Nat × ValidatorDescription)))
    (i acc : Nat) (lst : List ValidatorDescription) (w : Nat)
    (l : List ValidatorDescription)
    (h : vsetLoop items i acc lst = .ok (w, l)) :
    l.length = lst.length + items.length ∧
      ∀ j (hj : j < items.length), ∃ dsc, items.get ⟨j, hj⟩ = .ok (i + j, dsc) := by
  induction items generalizing i acc lst with
  | nil =>
      simp only [vsetLoop, Except.ok.injEq, Prod.mk.injEq] at h
      obtain ⟨hw, hl⟩ := h
      refine ⟨?_, ?_⟩
      · rw [← hl]
        simp
      · intro j hj
        exact absurd hj (by simp)
  | cons item items ih =>
      cases item with
      | error err => simp only [vsetLoop] at h; cases h
      | ok p =>
          obtain ⟨idx, dsc⟩ := p
          simp only [vsetLoop] at h
          by_cases hidx : idx = i
          · rw [if_pos hidx] at h
            obtain ⟨hlen, hget⟩ := ih _ _ _ h
            refine ⟨?_, ?_⟩
            · rw [hlen]
              simp only [List.length_cons]
              omega
            · intro j hj
              cases j with
              | zero => exact ⟨dsc, by simp [hidx]⟩
              | succ j2 =>
                  have hj2 : j2 < items.length := Nat.lt_of_succ_lt_succ hj
                  obtain ⟨d2, hd2⟩ := hget j2 hj2
                  refine ⟨d2, ?_⟩
                  have harith : i + 1 + j2 = i + (j2 + 1) := by omega
                  rw [harith] at hd2
                  exact hd2
          · rw [if_neg hidx] at h
            cases h

theorem vsetLoop_dict_facts (d : Dict) (total w : Nat)
    (l : List ValidatorDescription)
    (h : vsetLoop ((dictIterVD d).take total) 0 0 [] = .ok (w, l)) :
    l.length = min d.length total ∧
      (d.take l.length).map Prod.fst = List.range l.length := by
  obtain ⟨hlen, hget⟩ := vsetLoop_shape _ _ _ _ _ _ h
  have hil : ((dictIterVD d).take total).length = min total d.length := by
    simp [dictIterVD]
  have hll : l.length = min d.length total := by
    rw [hlen, hil]
    simp [Nat.min_comm]
  refine ⟨hll, ?_⟩
  have hld : l.length ≤ d.length := by
    rw [hll]
    exact Nat.min_le_left _ _
  apply List.ext_getElem
  · simp only [List.length_map, List.length_take, List.length_range]
    omega
  · intro j h1 h2
    have hjl : j < l.length := by simpa using h2
    have hjl2 : j < min d.length total := by
      rw [← hll]
      exact hjl
    have hjd : j < d.length := by omega
    have hji : j < ((dictIterVD d).take total).length := by
      rw [hil]
      omega
    obtain ⟨dsc, hdsc⟩ := hget j hji
    rw [List.get_eq_getElem] at hdsc
    rw [List.getElem_take] at hdsc
    simp only [dictIterVD, List.getElem_map] at hdsc
    have hkey : (d[j]).1 = j := by
      cases hp : ValidatorDescription.load_from ((d[j]).2.asSlice) with
      | ok q =>
          obtain ⟨vd, srest⟩ := q
          rw [hp] at hdsc
          simp only [Except.ok.injEq, Prod.mk.injEq] at hdsc
          omega
      | error e =>
          rw [hp] at hdsc
          simp at hdsc
    have hgoal1 : ((d.take l.length).map Prod.fst)[j] = (d[j]).1 := by
      simp only [List.getElem_map, List.getElem_take]
    rw [hgoal1, hkey, List.getElem_range j h2]

theorem vsetChecksEnforced_holds : vsetChecksEnforced := by
  refine ⟨?_, ?_, ?_, ?_⟩
  · intro s tagByte s1 us s2 uu s3 total s4 mainv s5 hA htag hB hC hD hE hlt
    unfold ValidatorSet.load_from
    rw [hA]
    simp only [okBind]
    rcases htag with ht | ht
    · rw [if_pos ht]
      rw [hB]
      simp only [okBind]
      rw [hC]
      simp only [okBind]
      rw [hD]
      simp only [okBind]
      rw [hE]
      simp only [okBind]
      rw [if_pos (by omega : mainv > total)]
    · rw [if_neg ((by rw [ht]; decide) : ¬ tagByte = 0x11), if_pos ht]
      rw [hB]
      simp only [okBind]
      rw [hC]
      simp only [okBind]
      rw [hD]
      simp only [okBind]
      rw [hE]
      simp only [okBind]
      rw [if_pos (by omega : mainv > total)]
  · intro idx dsc items i acc lst hne
    simp only [vsetLoop]
    rw [if_neg hne]
  · intro s s1 us s2 uu s3 total s4 mainv s5 tw s6 d s7 hA hB hC hD hE hle hF hG htake
    unfold ValidatorSet.load_from
    rw [hA]
    simp only [okBind]
    rw [if_neg (by decide : ¬ (0x12 : Nat) = 0x11)]
    simp only [if_true]
    rw [hB]
    simp only [okBind]
    rw [hC]
    simp only [okBind]
    rw [hD]
    simp only [okBind]
    rw [hE]
    simp only [okBind]
    rw [if_neg (by omega : ¬ mainv > total)]
    rw [hF]
    simp only [okBind]
    rw [hG]
    simp only [okBind]
    rw [htake]
    rfl
  · intro s s1 us s2 uu s3 total s4 mainv s5 tw s6 d s7 ctw list hA hB hC hD hE hle hF hG hloop hne hneq
    unfold ValidatorSet.load_from
    rw [hA]
    simp only [okBind]
    rw [if_neg (by decide : ¬ (0x12 : Nat) = 0x11)]
    simp only [if_true]
    rw [hB]
    simp only [okBind]
    rw [hC]
    simp only [okBind]
    rw [hD]
    simp only [okBind]
    rw [hE]
    simp only [okBind]
    rw [if_neg (by omega : ¬ mainv > total)]
    rw [hF]
    simp only [okBind]
    rw [hG]
    simp only [okBind]
    rw [hloop]
    simp only []
    have hemp : ¬ (list.isEmpty = true) := by
      cases list with
      | nil => exact absurd rfl hne
      | cons a l2 => simp
    rw [if_neg hemp]
    rw [if_pos hneq]

/-- Claim C9, amended: for every slice from which `ValidatorSet::load_from`
returns `Ok`, the returned set has a non-empty validator list; `main` is
nonzero and does not exceed the stored `total` field; the loaded list has
length `min (dictionary size) total` and the dictionary keys of the loaded
entries are exactly `0..len(list)`; and `total_weight` equals the 64-bit
wrapping sum of the loaded validators' weights (checked against the stored
value for tag `0x12`, computed from the entries for tag `0x11`); these
parse-level guarantees are `vsetParseFacts`.  Moreover the checked
conditions are enforced with `Err(InvalidData)` (`vsetChecksEnforced`):
a header with `main > total` is rejected, a dictionary key different from
its running index aborts the entry loop, an empty loaded list is rejected,
and a tag-`0x12` stored total weight differing from the computed one is
rejected.  (The original claim's stronger conditions fail: `main` is
checked only against the stored `total`, not against the number of loaded
entries, and the keys are `0..len(list)` with
`len(list) = min(dict size, total)` rather than `0..total`, as the
counterexample shows.) -/
theorem validator_set_load_invariants (s : CellSlice) (vs : ValidatorSet)
    (rest : CellSlice) (h : ValidatorSet.load_from s = .ok (vs, rest)) :
    (vs.list ≠ [] ∧ 1 ≤ vs.main ∧
      vs.total_weight =
        vs.list.foldl (fun acc d => (acc + d.weight) % 2 ^ 64) 0) ∧
    vsetParseFacts s vs rest ∧ vsetChecksEnforced := by
  unfold ValidatorSet.load_from at h
  obtain ⟨⟨tagByte, s1⟩, hA, h⟩ := bind_ok_inv _ _ _ h
  simp only [] at h
  by_cases ht1 : tagByte = 0x11
  · rw [if_pos ht1] at h
    simp only [okBind, Bool.false_eq_true, if_false] at h
    obtain ⟨⟨us, s2⟩, hB, h⟩ := bind_ok_inv _ _ _ h
    simp only [] at h
    obtain ⟨⟨uu, s3⟩, hC, h⟩ := bind_ok_inv _ _ _ h
    simp only [] at h
    obtain ⟨⟨total, s4⟩, hD, h⟩ := bind_ok_inv _ _ _ h
    simp only [] at h
    obtain ⟨⟨mainv, s5⟩, hmain, h⟩ := bind_ok_inv _ _ _ h
    simp only [] at h
    have hm1 := loadNonZeroU16_pos s4 mainv s5 hmain
    by_cases hmt : mainv > total
    · simp [hmt] at h
    · rw [if_neg hmt] at h
      have hmle : mainv ≤ total := by omega
      obtain ⟨⟨d, s6⟩, hE, h⟩ := bind_ok_inv _ _ _ h
      simp only [okBind] at h
      cases hloop : vsetLoop ((dictIterVD d).take total) 0 0 [] with
      | error err => rw [hloop] at h; cases h
      | ok p =>
          obtain ⟨ctw, list⟩ := p
          rw [hloop] at h
          simp only [] at h
          obtain ⟨ds, hds, hw⟩ := vsetLoop_ok _ _ _ _ _ _ hloop
          simp only [List.reverse_nil, List.nil_append] at hds
          subst hds
          obtain ⟨hlen, hkeys⟩ := vsetLoop_dict_facts d total ctw list hloop
          by_cases hemp : list.isEmpty = true
          · simp [hemp] at h
          · rw [if_neg hemp] at h
            have hne : list ≠ [] := by
              intro hn
              rw [hn] at hemp
              exact hemp rfl
            simp only [Except.ok.injEq, Prod.mk.injEq] at h
            obtain ⟨hvs, hrest⟩ := h
            subst hvs
            subst hrest
            refine ⟨⟨hne, hm1, hw⟩, ?_, vsetChecksEnforced_holds⟩
            exact ⟨tagByte, s1, s2, s3, total, s4, s5, d, hA, hB, hC, hD,
              hmain, hmle, Or.inl ⟨ht1, hE⟩, hlen, hkeys⟩
  · by_cases ht2 : tagByte = 0x12
    · rw [if_neg ht1, if_pos ht2] at h
      simp only [okBind, eq_self_iff_true, if_true] at h
      obtain ⟨⟨us, s2⟩, hB, h⟩ := bind_ok_inv _ _ _ h
      simp only [] at h
      obtain ⟨⟨uu, s3⟩, hC, h⟩ := bind_ok_inv _ _ _ h
      simp only [] at h
      obtain ⟨⟨total, s4⟩, hD, h⟩ := bind_ok_inv _ _ _ h
      simp only [] at h
      obtain ⟨⟨mainv, s5⟩, hmain, h⟩ := bind_ok_inv _ _ _ h
      simp only [] at h
      have hm1 := loadNonZeroU16_pos s4 mainv s5 hmain
      by_cases hmt : mainv > total
      · simp [hmt] at h
      · rw [if_neg hmt] at h
        have hmle : mainv ≤ total := by omega
        obtain ⟨⟨tw, s6⟩, hF, h⟩ := bind_ok_inv _ _ _ h
        simp only [] at h
        obtain ⟨⟨d, s7⟩, hG, h⟩ := bind_ok_inv _ _ _ h
        simp only [okBind] at h
        cases hloop : vsetLoop ((dictIterVD d).take total) 0 0 [] with
        | error err => rw [hloop] at h; cases h
        | ok p =>
            obtain ⟨ctw, list⟩ := p
            rw [hloop] at h
            simp only [] at h
            obtain ⟨ds, hds, hw⟩ := vsetLoop_ok _ _ _ _ _ _ hloop
            simp only [List.reverse_nil, List.nil_append] at hds
            subst hds
            obtain ⟨hlen, hkeys⟩ := vsetLoop_dict_facts d total ctw list hloop
            by_cases hemp : list.isEmpty = true
            · simp [hemp] at h
            · rw [if_neg hemp] at h
              have hne : list ≠ [] := by
                intro hn
                rw [hn] at hemp
                exact hemp rfl
              by_cases htw : tw ≠ ctw
              · simp [htw] at h
              · rw [if_neg htw] at h
                simp only [Except.ok.injEq, Prod.mk.injEq] at h
                obtain ⟨hvs, hrest⟩ := h
                subst hvs
                subst hrest
                refine ⟨⟨hne, hm1, ?_⟩, ?_, vsetChecksEnforced_holds⟩
                · show tw = _
                  rw [not_not.mp htw]
                  exact hw
                · exact ⟨tagByte, s1, s2, s3, total, s4, s5, d, hA, hB, hC,
                    hD, hmain, hmle, Or.inr ⟨ht2, s6, hF, hG⟩, hlen, hkeys⟩
    · rw [if_neg ht1, if_neg ht2] at h
      simp only [errBind] at h
      cases h

/-- Slice holding a tag-`0x12` validator set whose stored `total` is 2 and
`main` is 2, while its dictionary holds a single entry with key 0 and
weight 5. -/
def vsetShortDictSlice : CellSlice :=
  ⟨natToBits 8 0x12 ++ natToBits 32 0 ++ natToBits 32 0 ++ natToBits 16 2 ++
      natToBits 16 2 ++ natToBits 64 5 ++ [true],
    [dictRoot (0, Cell.mk (natToBits 8 0x53 ++ natToBits 32 0x8e81278a ++
      natToBits 256 0 ++ natToBits 64 5) []) []]⟩

/-- Counterexample for C9: loading succeeds although the dictionary has
fewer than `total` entries, so `main` (= 2) exceeds the number of loaded
entries (= 1), and the loaded keys are `0..1`, not `0..total = 0..2`. -/
theorem validator_set_main_exceeds_entries :
    ValidatorSet.load_from vsetShortDictSlice =
      .ok (⟨0, 0, 2, 5, [⟨0, 5, none, 0⟩]⟩, ⟨[], []⟩) ∧
    (⟨0, 0, 2, 5, [⟨0, 5, none, 0⟩]⟩ : ValidatorSet).list.length <
      (⟨0, 0, 2, 5, [⟨0, 5, none, 0⟩]⟩ : ValidatorSet).main :=
  ⟨rfl, by decide⟩

/-- Witness for C9's amended theorem, at the concrete slice above. -/
theorem validator_set_load_invariants_witness :
    ((⟨0, 0, 2, 5, [⟨0, 5, none, 0⟩]⟩ : ValidatorSet).list ≠ [] ∧
      1 ≤ (⟨0, 0, 2, 5, [⟨0, 5, none, 0⟩]⟩ : ValidatorSet).main ∧
      (⟨0, 0, 2, 5, [⟨0, 5, none, 0⟩]⟩ : ValidatorSet).total_weight =
        (⟨0, 0, 2, 5, [⟨0, 5, none, 0⟩]⟩ : ValidatorSet).list.foldl
          (fun acc d => (acc + d.weight) % 2 ^ 64) 0) ∧
    vsetParseFacts vsetShortDictSlice ⟨0, 0, 2, 5, [⟨0, 5, none, 0⟩]⟩ ⟨[], []⟩ ∧
    vsetChecksEnforced :=
  validator_set_load_invariants vsetShortDictSlice
    ⟨0, 0, 2, 5, [⟨0, 5, none, 0⟩]⟩ ⟨[], []⟩ rfl

/-! Section: Workchain descriptions (C10). -/

/-- Source: `WorkchainFormatBasic` (`src/models/config/params.rs` lines
204–210); `vm_version: i32` is modelled by its 32-bit two's-complement bit
pattern. -/
structure WorkchainFormatBasic where
  vm_version : Nat
  vm_mode : Nat
deriving DecidableEq

/-- Source: `WorkchainFormatExtended` (`src/models/config/params.rs` lines
213–224); `Uint12` address lengths and a nonzero 32-bit workchain type
id. -/
structure WorkchainFormatExtended where
  min_addr_len : Nat
  max_addr_len : Nat
  addr_len_step : Nat
  workchain_type_id : Nat
deriving DecidableEq

/-- Source: `WorkchainFormatExtended::is_valid` (`src/models/config/params.rs`
lines 226–234). -/
def WorkchainFormatExtended.is_valid (f : WorkchainFormatExtended) : Bool :=
  decide (64 ≤ f.min_addr_len) && decide (f.min_addr_len ≤ f.max_addr_len) &&
    decide (f.max_addr_len ≤ 1023) && decide (f.addr_len_step ≤ 1023)

/-- Source: `WorkchainFormat` (`src/models/config/params.rs` lines 149–155). -/
inductive WorkchainFormat where
  | basic (format : WorkchainFormatBasic)
  | extended (format : WorkchainFormatExtended)
deriving DecidableEq

/-- Source: `WorkchainFormat::is_valid` (`src/models/config/params.rs`
lines 158–164). -/
def WorkchainFormat.is_valid : WorkchainFormat → Bool
  | .basic _ => true
  | .extended f => f.is_valid

/-- Source: `WorkchainFormat::is_basic` (`src/models/config/params.rs`
lines 166–172). -/
def WorkchainFormat.is_basic : WorkchainFormat → Bool
  | .basic _ => true
  | .extended _ => false

/-- Source: `Store for WorkchainFormat` (`src/models/config/params.rs`
lines 174–191): four-bit tag `0x1` (basic) or `0x0` (extended), then the
derived field codecs; the derived extended store validates with
`is_valid` (modelled from the spec: the `validate_with` derive attribute
is not under `src/`). -/
def WorkchainFormat.store_into :
    WorkchainFormat → CellBuilder → Except Error CellBuilder
  | .basic f, b => do
      let b ← b.store_uint 0x1 4
      let b ← b.store_uint f.vm_version 32
      b.store_uint f.vm_mode 64
  | .extended f, b =>
      if f.is_valid then do
        let b ← b.store_uint 0x0 4
        let b ← b.store_uint f.min_addr_len 12
        let b ← b.store_uint f.max_addr_len 12
        let b ← b.store_uint f.addr_len_step 12
        b.store_uint f.workchain_type_id 32
      else .error .invalidData

/-- Source: `Load for WorkchainFormat` (`src/models/config/params.rs`
lines 193–201): dispatch on the four-bit tag; the derived extended loader
rejects a zero type id (`NonZeroU32`) and validates with `is_valid`, both
as `InvalidData` (modelled from the spec: the derive macro is not under
`src/`). -/
def WorkchainFormat.load_from (s : CellSlice) :
    Except Error (WorkchainFormat × CellSlice) := do
  let (tag, s) ← s.load_uint 4
  if tag = 0x1 then do
    let (vm_version, s) ← s.load_uint 32
    let (vm_mode, s) ← s.load_uint 64
    .ok (.basic ⟨vm_version, vm_mode⟩, s)
  else if tag = 0x0 then do
    let (min_addr_len, s) ← s.load_uint 12
    let (max_addr_len, s) ← s.load_uint 12
    let (addr_len_step, s) ← s.load_uint 12
    let (workchain_type_id, s) ← s.load_uint 32
    if workchain_type_id = 0 then .error .invalidData
    else
      if WorkchainFormatExtended.is_valid
          ⟨min_addr_len, max_addr_len, addr_len_step, workchain_type_id⟩ then
        .ok (.extended ⟨min_addr_len, max_addr_len, addr_len_step,
          workchain_type_id⟩, s)
      else .error .invalidData
  else .error .invalidTag

/-- Source: `WorkchainDescription` (`src/models/config/params.rs` lines
46–69). -/
structure WorkchainDescription where
  enabled_since : Nat
  actual_min_split : Nat
  min_split : Nat
  max_split : Nat
  active : Bool
  accept_msgs : Bool
  zerostate_root_hash : Nat
  zerostate_file_hash : Nat
  version : Nat
  format : WorkchainFormat
deriving DecidableEq

/-- Modelled from the spec: `ShardIdent::MAX_SPLIT_DEPTH` is not under
`src/`; the maximum shard split depth referenced by
`WorkchainDescription::is_valid`. -/
def ShardIdentMaxSplitDepth : Nat := 60

/-- Source: `WorkchainDescription::TAG` (`src/models/config/params.rs`
line 72): the leading byte `0xa6`. -/
def WorkchainDescription.TAG : Nat := 0xa6

/-- Source: `WorkchainDescription::is_valid` (`src/models/config/params.rs`
lines 74–80). -/
def WorkchainDescription.is_valid (w : WorkchainDescription) : Bool :=
  decide (w.min_split ≤ w.max_split) &&
    decide (w.max_split ≤ ShardIdentMaxSplitDepth) && w.format.is_valid

/-- Source: `Store for WorkchainDescription` (`src/models/config/params.rs`
lines 82–107): refuse an invalid description, then store the tag, header
fields, the packed flags word (basic bit 15, active bit 14, accept bit
13), the zerostate hashes, the version and the format. -/
def WorkchainDescription.store_into (w : WorkchainDescription)
    (builder : CellBuilder) : Except Error CellBuilder :=
  if ¬ w.is_valid then .error .invalidData
  else do
    let flags : Nat :=
      (cond w.format.is_basic 1 0) <<< 15 + (cond w.active 1 0) <<< 14 +
        (cond w.accept_msgs 1 0) <<< 13
    let builder ← builder.store_uint WorkchainDescription.TAG 8
    let builder ← builder.store_uint w.enabled_since 32
    let builder ← builder.store_uint w.actual_min_split 8
    let builder ← builder.store_uint w.min_split 8
    let builder ← builder.store_uint w.max_split 8
    let builder ← builder.store_uint flags 16
    let builder ← builder.store_uint w.zerostate_root_hash 256
    let builder ← builder.store_uint w.zerostate_file_hash 256
    let builder ← builder.store_uint w.version 32
    w.format.store_into builder

/-- Source: `Load for WorkchainDescription` (`src/models/config/params.rs`
lines 109–146): check the tag byte `0xa6` (`InvalidTag`), read the header
fields and the flags word, reject any of the 13 low flag bits being set
(`flags << 3 != 0` on `u16`, `InvalidData`), read the hashes, version and
format, and reject a basic bit that disagrees with the decoded format
(`InvalidData`). -/
def WorkchainDescription.load_from (s : CellSlice) :
    Except Error (WorkchainDescription × CellSlice) := do
  let (tag, s) ← s.load_uint 8
  if tag ≠ WorkchainDescription.TAG then .error .invalidTag
  else do
    let (enabled_since, s) ← s.load_uint 32
    let (actual_min_split, s) ← s.load_uint 8
    let (min_split, s) ← s.load_uint 8
    let (max_split, s) ← s.load_uint 8
    let (flags, s) ← s.load_uint 16
    if (flags <<< 3) % 2 ^ 16 ≠ 0 then .error .invalidData
    else do
      let (zerostate_root_hash, s) ← s.load_uint 256
      let (zerostate_file_hash, s) ← s.load_uint 256
      let (version, s) ← s.load_uint 32
      let (format, s) ← WorkchainFormat.load_from s
      if decide (flags &&& 0x8000 ≠ 0) ≠ format.is_basic then
        .error .invalidData
      else
        .ok (⟨enabled_since, actual_min_split, min_split, max_split,
          decide (flags &&& 0x4000 ≠ 0), decide (flags &&& 0x2000 ≠ 0),
          zerostate_root_hash, zerostate_file_hash, version, format⟩, s)

/-- Claim C10: `WorkchainDescription::load_from` returns `InvalidTag` when
the leading byte is readable but differs from `0xa6`; returns `InvalidData`
whenever any of the 13 low bits of the 16-bit flags word is set; returns
`InvalidData` when the high basic flag bit disagrees with whether the
decoded format is basic; and `store_into` refuses any invalid description
(`min_split > max_split`, `max_split` above the maximum split depth, or an
invalid format) with `InvalidData`. -/
theorem workchain_description_codec_errors :
    (∀ (s : CellSlice) (v : Nat) (s' : CellSlice),
        s.load_uint 8 = .ok (v, s') → v ≠ WorkchainDescription.TAG →
        WorkchainDescription.load_from s = .error .invalidTag) ∧
      (∀ (a m1 m2 m3 flags : Nat) (rest : List Bool) (refs : List Cell),
        a < 2 ^ 32 → m1 < 2 ^ 8 → m2 < 2 ^ 8 → m3 < 2 ^ 8 →
        flags < 2 ^ 16 → flags % 2 ^ 13 ≠ 0 →
        WorkchainDescription.load_from
            ⟨natToBits 8 WorkchainDescription.TAG ++ (natToBits 32 a ++
              (natToBits 8 m1 ++ (natToBits 8 m2 ++ (natToBits 8 m3 ++
                (natToBits 16 flags ++ rest))))), refs⟩ =
          .error .invalidData) ∧
      (∀ (a m1 m2 m3 flags h1 h2 ver : Nat) (fb : List Bool)
          (refs : List Cell) (fmt : WorkchainFormat) (sf : CellSlice),
        a < 2 ^ 32 → m1 < 2 ^ 8 → m2 < 2 ^ 8 → m3 < 2 ^ 8 →
        flags < 2 ^ 16 → flags % 2 ^ 13 = 0 →
        h1 < 2 ^ 256 → h2 < 2 ^ 256 → ver < 2 ^ 32 →
        WorkchainFormat.load_from ⟨fb, refs⟩ = .ok (fmt, sf) →
        decide (flags &&& 0x8000 ≠ 0) ≠ fmt.is_basic →
        WorkchainDescription.load_from
            ⟨natToBits 8 WorkchainDescription.TAG ++ (natToBits 32 a ++
              (natToBits 8 m1 ++ (natToBits 8 m2 ++ (natToBits 8 m3 ++
                (natToBits 16 flags ++ (natToBits 256 h1 ++
                  (natToBits 256 h2 ++ (natToBits 32 ver ++ fb)))))))),
              refs⟩ =
          .error .invalidData) ∧
      (∀ (w : WorkchainDescription) (b : CellBuilder),
        w.is_valid = false → w.store_into b = .error .invalidData) := by
  refine ⟨?_, ?_, ?_, ?_⟩
  · intro s v s' hload hne
    unfold WorkchainDescription.load_from
    rw [hload]
    simp only [okBind]
    rw [if_pos hne]
  · intro a m1 m2 m3 flags rest refs ha hm1 hm2 hm3 hf hlow
    unfold WorkchainDescription.load_from
    rw [load_uint_append WorkchainDescription.TAG 8 _ _ (by decide)]
    simp only [okBind]
    rw [if_neg (by simp)]
    rw [load_uint_append a 32 _ _ ha]
    simp only [okBind]
    rw [load_uint_append m1 8 _ _ hm1]
    simp only [okBind]
    rw [load_uint_append m2 8 _ _ hm2]
    simp only [okBind]
    rw [load_uint_append m3 8 _ _ hm3]
    simp only [okBind]
    rw [load_uint_append flags 16 _ _ hf]
    simp only [okBind]
    rw [if_pos (show (flags <<< 3) % 2 ^ 16 ≠ 0 by
      rw [Nat.shiftLeft_eq]
      omega)]
  · intro a m1 m2 m3 flags h1 h2 ver fb refs fmt sf ha hm1 hm2 hm3 hf hlow
      hh1 hh2 hver hfmt hmis
    unfold WorkchainDescription.load_from
    rw [load_uint_append WorkchainDescription.TAG 8 _ _ (by decide)]
    simp only [okBind]
    rw [if_neg (by simp)]
    rw [load_uint_append a 32 _ _ ha]
    simp only [okBind]
    rw [load_uint_append m1 8 _ _ hm1]
    simp only [okBind]
    rw [load_uint_append m2 8 _ _ hm2]
    simp only [okBind]
    rw [load_uint_append m3 8 _ _ hm3]
    simp only [okBind]
    rw [load_uint_append flags 16 _ _ hf]
    simp only [okBind]
    rw [if_neg (show ¬ (flags <<< 3) % 2 ^ 16 ≠ 0 by
      rw [Nat.shiftLeft_eq]
      omega)]
    rw [load_uint_append h1 256 _ _ hh1]
    simp only [okBind]
    rw [load_uint_append h2 256 _ _ hh2]
    simp only [okBind]
    rw [load_uint_append ver 32 _ _ hver]
    simp only [okBind]
    rw [hfmt]
    simp only [okBind]
    rw [if_pos hmis]
  · intro w b hv
    unfold WorkchainDescription.store_into
    rw [if_pos (by simp [hv])]

/-- Witness for C10: each error path at a concrete input — a wrong leading
byte, a flags word with a low bit set, a cleared basic bit against a basic
format, and storing a description with `min_split = 2 > max_split = 1`. -/
theorem workchain_description_codec_errors_witness :
    WorkchainDescription.load_from ⟨natToBits 8 0, []⟩ =
        .error .invalidTag ∧
      WorkchainDescription.load_from
          ⟨natToBits 8 WorkchainDescription.TAG ++ (natToBits 32 0 ++
            (natToBits 8 0 ++ (natToBits 8 0 ++ (natToBits 8 0 ++
              (natToBits 16 1 ++ []))))), []⟩ =
        .error .invalidData ∧
      WorkchainDescription.load_from
          ⟨natToBits 8 WorkchainDescription.TAG ++ (natToBits 32 0 ++
            (natToBits 8 0 ++ (natToBits 8 0 ++ (natToBits 8 0 ++
              (natToBits 16 0 ++ (natToBits 256 0 ++ (natToBits 256 0 ++
                (natToBits 32 0 ++ (natToBits 4 1 ++ (natToBits 32 0 ++
                  natToBits 64 0)))))))))), []⟩ =
        .error .invalidData ∧
      WorkchainDescription.store_into
          ⟨0, 0, 2, 1, false, false, 0, 0, 0, .basic ⟨0, 0⟩⟩
          CellBuilder.new =
        .error .invalidData :=
  ⟨workchain_description_codec_errors.1 ⟨natToBits 8 0, []⟩ 0 ⟨[], []⟩ rfl
      (by decide),
    workchain_description_codec_errors.2.1 0 0 0 0 1 [] [] (by decide)
      (by decide) (by decide) (by decide) (by decide) (by decide),
    workchain_description_codec_errors.2.2.1 0 0 0 0 0 0 0 0
      (natToBits 4 1 ++ (natToBits 32 0 ++ natToBits 64 0)) []
      (.basic ⟨0, 0⟩) ⟨[], []⟩ (by decide) (by decide) (by decide)
      (by decide) (by decide) (by decide) (by decide) (by decide)
      (by decide) (by rfl) (by decide),
    workchain_description_codec_errors.2.2.2
      ⟨0, 0, 2, 1, false, false, 0, 0, 0, .basic ⟨0, 0⟩⟩ CellBuilder.new
      rfl⟩
